import Mathlib

/-!
Shallow embedding of `mdgo/util/dict_utils.py` (repository HT-MD/mdgo).

Python dictionaries with string (or integer) keys are embedded as
insertion-ordered association lists: `d[k] = v` updates the value in place
when `k` is already a key and appends the new entry otherwise, exactly as a
Python `dict` does.  Floating-point masses and charges are embedded as exact
rationals.  The embedding of each Python function keeps its source name.
-/

section AssocList

/-- The keys of a dict, in insertion order. -/
def keysE {K V : Type} (d : List (K × V)) : List K := d.map Prod.fst

theorem keysE_nil {K V : Type} : keysE ([] : List (K × V)) = [] := rfl

theorem keysE_cons {K V : Type} (kv : K × V) (d : List (K × V)) :
    keysE (kv :: d) = kv.1 :: keysE d := rfl

variable {K V : Type} [DecidableEq K]

/-- `d[k] = v` on a Python dict: overwrite in place, else append at the end. -/
def updEntry : List (K × V) → K → V → List (K × V)
  | [], k, v => [(k, v)]
  | (k', v') :: rest, k, v =>
      if k' = k then (k, v) :: rest else (k', v') :: updEntry rest k v

/-- `d.get(k)` / `d[k]` on a Python dict. -/
def lookupE : List (K × V) → K → Option V
  | [], _ => none
  | (k', v) :: rest, k => if k' = k then some v else lookupE rest k

/-- `d.pop(k)`: remove the entry with key `k` (for a dict, the only one). -/
def popE : List (K × V) → K → List (K × V)
  | [], _ => []
  | (k', v') :: rest, k => if k' = k then rest else (k', v') :: popE rest k

theorem mem_keysE_updEntry {d : List (K × V)} {k a : K} {v : V} :
    a ∈ keysE (updEntry d k v) ↔ a = k ∨ a ∈ keysE d := by
  induction d with
  | nil => simp [updEntry, keysE]
  | cons hd tl ih =>
      obtain ⟨k', v'⟩ := hd
      by_cases h : k' = k
      · subst h
        rw [updEntry, if_pos rfl]
        simp only [keysE_cons, List.mem_cons]
        tauto
      · rw [updEntry, if_neg h]
        simp only [keysE_cons, List.mem_cons, ih]
        tauto

theorem nodup_keysE_updEntry {d : List (K × V)} {k : K} {v : V}
    (h : (keysE d).Nodup) : (keysE (updEntry d k v)).Nodup := by
  induction d with
  | nil => simp [updEntry, keysE]
  | cons hd tl ih =>
      obtain ⟨k', v'⟩ := hd
      rw [keysE_cons, List.nodup_cons] at h
      by_cases hk : k' = k
      · subst hk
        rw [updEntry, if_pos rfl, keysE_cons, List.nodup_cons]
        exact h
      · rw [updEntry, if_neg hk, keysE_cons, List.nodup_cons]
        refine ⟨fun hmem => ?_, ih h.2⟩
        rcases mem_keysE_updEntry.mp hmem with h1 | h1
        · exact hk h1
        · exact h.1 h1

theorem lookupE_updEntry_self {d : List (K × V)} {k : K} {v : V} :
    lookupE (updEntry d k v) k = some v := by
  induction d with
  | nil => simp [updEntry, lookupE]
  | cons hd tl ih =>
      obtain ⟨k', v'⟩ := hd
      by_cases h : k' = k
      · subst h; simp [updEntry, lookupE]
      · rw [updEntry, if_neg h, lookupE, if_neg h, ih]

theorem lookupE_updEntry_ne {d : List (K × V)} {k a : K} {v : V} (h : a ≠ k) :
    lookupE (updEntry d k v) a = lookupE d a := by
  have hne : ¬ k = a := fun hh => h hh.symm
  induction d with
  | nil => simp only [updEntry, lookupE, if_neg hne]
  | cons hd tl ih =>
      obtain ⟨k', v'⟩ := hd
      by_cases hk : k' = k
      · subst hk
        rw [updEntry, if_pos rfl]
        simp only [lookupE, if_neg hne]
      · rw [updEntry, if_neg hk]
        by_cases hka : k' = a
        · simp only [lookupE, if_pos hka]
        · simp only [lookupE, if_neg hka, ih]

theorem lookupE_isSome_iff_mem {d : List (K × V)} {k : K} :
    (lookupE d k).isSome ↔ k ∈ keysE d := by
  induction d with
  | nil => simp [lookupE, keysE]
  | cons hd tl ih =>
      obtain ⟨k', v'⟩ := hd
      by_cases h : k' = k
      · subst h; simp [lookupE, keysE_cons]
      · rw [lookupE, if_neg h, keysE_cons, List.mem_cons, ih]
        have : ¬ k = k' := fun hh => h hh.symm
        tauto

theorem mem_keysE_of_lookupE {d : List (K × V)} {k : K} {v : V}
    (h : lookupE d k = some v) : k ∈ keysE d := by
  rw [← lookupE_isSome_iff_mem, h]; rfl

theorem popE_sublist (d : List (K × V)) (k : K) : List.Sublist (popE d k) d := by
  induction d with
  | nil => simp [popE]
  | cons hd tl ih =>
      obtain ⟨k', v'⟩ := hd
      by_cases h : k' = k
      · rw [popE, if_pos h]
        exact List.sublist_cons_self _ _
      · rw [popE, if_neg h]
        exact ih.cons₂ _

theorem nodup_keysE_popE {d : List (K × V)} {k : K}
    (h : (keysE d).Nodup) : (keysE (popE d k)).Nodup :=
  (((popE_sublist d k).map Prod.fst).nodup h)

theorem mem_keysE_of_mem_popE {d : List (K × V)} {k a : K}
    (h : a ∈ keysE (popE d k)) : a ∈ keysE d :=
  ((popE_sublist d k).map Prod.fst).mem h

theorem not_mem_keysE_popE {d : List (K × V)} {k : K}
    (h : (keysE d).Nodup) : k ∉ keysE (popE d k) := by
  induction d with
  | nil => simp [popE, keysE]
  | cons hd tl ih =>
      obtain ⟨k', v'⟩ := hd
      rw [keysE_cons, List.nodup_cons] at h
      by_cases hk : k' = k
      · subst hk
        rw [popE, if_pos rfl]
        exact h.1
      · rw [popE, if_neg hk, keysE_cons, List.mem_cons]
        rintro (h1 | h1)
        · exact hk h1.symm
        · exact ih h.2 h1

/-- Record a list of entries into a dict, in order (a sequence of `d[k] = v`). -/
def applyEntries (d : List (K × V)) (es : List (K × V)) : List (K × V) :=
  es.foldl (fun acc kv => updEntry acc kv.1 kv.2) d

theorem applyEntries_nil (d : List (K × V)) : applyEntries d [] = d := rfl

theorem applyEntries_cons (d : List (K × V)) (kv : K × V) (es : List (K × V)) :
    applyEntries d (kv :: es) = applyEntries (updEntry d kv.1 kv.2) es := rfl

theorem mem_keysE_applyEntries {es : List (K × V)} {d : List (K × V)} {a : K} :
    a ∈ keysE (applyEntries d es) ↔ a ∈ keysE d ∨ a ∈ es.map Prod.fst := by
  induction es generalizing d with
  | nil => simp [applyEntries_nil]
  | cons hd tl ih =>
      rw [applyEntries_cons, ih]
      rw [mem_keysE_updEntry]
      simp only [List.map_cons, List.mem_cons]
      tauto

theorem nodup_keysE_applyEntries {es : List (K × V)} {d : List (K × V)}
    (h : (keysE d).Nodup) : (keysE (applyEntries d es)).Nodup := by
  induction es generalizing d with
  | nil => simpa [applyEntries_nil] using h
  | cons hd tl ih =>
      rw [applyEntries_cons]
      exact ih (nodup_keysE_updEntry h)

theorem lookupE_applyEntries_of_not_mem {es : List (K × V)} {d : List (K × V)} {a : K}
    (h : a ∉ es.map Prod.fst) : lookupE (applyEntries d es) a = lookupE d a := by
  induction es generalizing d with
  | nil => rw [applyEntries_nil]
  | cons hd tl ih =>
      simp only [List.map_cons, List.mem_cons, not_or] at h
      rw [applyEntries_cons, ih h.2, lookupE_updEntry_ne h.1]

end AssocList

section Masses

/-- Python `math.isclose(a, b, rel_tol, abs_tol)` over exact rationals:
the truth of `abs(a-b) <= max(rel_tol * max(abs(a), abs(b)), abs_tol)`. -/
def isclose (a b relTol absTol : ℚ) : Bool :=
  decide (|a - b| ≤ max (relTol * max |a| |b|) absTol)

/-- The default `rel_tol` of `math.isclose`, `1e-09`. -/
def relTolDefault : ℚ := 1 / 1000000000

/-- Modelled from the spec: the `ElementTable` (`MM_of_Elements` in the source),
a static mapping from element symbol to standard atomic mass.  The defining
module (`mdgo/util/__init__.py`) is not included under `src/`; the table below
lists the standard (conventional) atomic masses of the elements in atomic-number
order, as the spec describes. -/
def MM_of_Elements : List (String × ℚ) :=
  [("H", 1.008), ("He", 4.0026), ("Li", 6.94), ("Be", 9.0122), ("B", 10.81),
   ("C", 12.011), ("N", 14.007), ("O", 15.999), ("F", 18.998), ("Ne", 20.180),
   ("Na", 22.990), ("Mg", 24.305), ("Al", 26.982), ("Si", 28.085), ("P", 30.974),
   ("S", 32.06), ("Cl", 35.45), ("Ar", 39.948), ("K", 39.098), ("Ca", 40.078),
   ("Sc", 44.956), ("Ti", 47.867), ("V", 50.942), ("Cr", 51.996), ("Mn", 54.938),
   ("Fe", 55.845), ("Co", 58.933), ("Ni", 58.693), ("Cu", 63.546), ("Zn", 65.38),
   ("Ga", 69.723), ("Ge", 72.630), ("As", 74.922), ("Se", 78.971), ("Br", 79.904),
   ("Kr", 83.798), ("Rb", 85.468), ("Sr", 87.62), ("Y", 88.906), ("Zr", 91.224),
   ("Nb", 92.906), ("Mo", 95.95), ("Tc", 98), ("Ru", 101.07), ("Rh", 102.91),
   ("Pd", 106.42), ("Ag", 107.87), ("Cd", 112.41), ("In", 114.82), ("Sn", 118.71),
   ("Sb", 121.76), ("Te", 127.60), ("I", 126.90), ("Xe", 131.29), ("Cs", 132.91),
   ("Ba", 137.33), ("La", 138.91), ("Ce", 140.12), ("Pr", 140.91), ("Nd", 144.24),
   ("Pm", 145), ("Sm", 150.36), ("Eu", 151.96), ("Gd", 157.25), ("Tb", 158.93),
   ("Dy", 162.50), ("Ho", 164.93), ("Er", 167.26), ("Tm", 168.93), ("Yb", 173.05),
   ("Lu", 174.97), ("Hf", 178.49), ("Ta", 180.95), ("W", 183.84), ("Re", 186.21),
   ("Os", 190.23), ("Ir", 192.22), ("Pt", 195.08), ("Au", 196.97), ("Hg", 200.59),
   ("Tl", 204.38), ("Pb", 207.2), ("Bi", 208.98), ("Po", 209), ("At", 210),
   ("Rn", 222), ("Fr", 223), ("Ra", 226), ("Ac", 227), ("Th", 232.04),
   ("Pa", 231.04), ("U", 238.03), ("Np", 237), ("Pu", 244), ("Am", 243),
   ("Cm", 247), ("Bk", 247), ("Cf", 251), ("Es", 252), ("Fm", 257),
   ("Md", 258), ("No", 259), ("Lr", 262)]

/-- The element names appended for one input mass by the inner loop of
`mass_to_name`: all table entries within the 0.1 tolerance, in table order. -/
def matchesFor (table : List (String × ℚ)) (mass : ℚ) : List String :=
  (table.filter (fun it => isclose mass it.2 relTolDefault (1 / 10))).map Prod.fst

/-- `mass_to_name`: nested loop appending every matching element name for every
mass, then `assert len(masses) == len(names)`; `none` models the failed
assertion (`InvalidMassError`). -/
def mass_to_name (table : List (String × ℚ)) (masses : List ℚ) : Option (List String) :=
  if (masses.flatMap (fun mass => matchesFor table mass)).length = masses.length
  then some (masses.flatMap (fun mass => matchesFor table mass)) else none

/-- The inner loop of `lmp_mass_to_name` for one row of the masses table:
`atoms[int(row)] = item[0]` for every table item within the 0.01 tolerance. -/
def lmpRowFold (table : List (String × ℚ)) (k : Nat) (m : ℚ)
    (atoms : List (Nat × String)) : List (Nat × String) :=
  table.foldl
    (fun acc it => if isclose m it.2 relTolDefault (1 / 100) then updEntry acc k it.1 else acc)
    atoms

/-- `lmp_mass_to_name`: per-row mapping from atom type id to element symbol. -/
def lmp_mass_to_name (table : List (String × ℚ)) (rows : List (Nat × ℚ)) :
    List (Nat × String) :=
  rows.foldl (fun acc rm => lmpRowFold table rm.1 rm.2 acc) []

/-- The table entries within 0.01 of a row mass, in table order. -/
def matches01 (table : List (String × ℚ)) (m : ℚ) : List String :=
  (table.filter (fun it => isclose m it.2 relTolDefault (1 / 100))).map Prod.fst

theorem matches01_cons_true {it : String × ℚ} {rest : List (String × ℚ)} {m : ℚ}
    (h : isclose m it.2 relTolDefault (1 / 100) = true) :
    matches01 (it :: rest) m = it.1 :: matches01 rest m := by
  simp only [matches01, List.filter_cons, h, if_true, List.map_cons]

theorem matches01_cons_false {it : String × ℚ} {rest : List (String × ℚ)} {m : ℚ}
    (h : isclose m it.2 relTolDefault (1 / 100) = false) :
    matches01 (it :: rest) m = matches01 rest m := by
  simp only [matches01, List.filter_cons, h, Bool.false_eq_true, if_false]

theorem lmpRowFold_cons_true {it : String × ℚ} {rest : List (String × ℚ)} {k : Nat}
    {m : ℚ} {atoms : List (Nat × String)}
    (h : isclose m it.2 relTolDefault (1 / 100) = true) :
    lmpRowFold (it :: rest) k m atoms = lmpRowFold rest k m (updEntry atoms k it.1) := by
  simp only [lmpRowFold, List.foldl_cons, h, if_true]

theorem lmpRowFold_cons_false {it : String × ℚ} {rest : List (String × ℚ)} {k : Nat}
    {m : ℚ} {atoms : List (Nat × String)}
    (h : isclose m it.2 relTolDefault (1 / 100) = false) :
    lmpRowFold (it :: rest) k m atoms = lmpRowFold rest k m atoms := by
  simp only [lmpRowFold, List.foldl_cons, h, Bool.false_eq_true, if_false]

theorem mem_keysE_lmpRowFold {table : List (String × ℚ)} {k : Nat} {m : ℚ}
    {atoms : List (Nat × String)} {a : Nat} :
    a ∈ keysE (lmpRowFold table k m atoms) ↔
      a ∈ keysE atoms ∨ (a = k ∧ matches01 table m ≠ []) := by
  induction table generalizing atoms with
  | nil => simp [lmpRowFold, matches01]
  | cons it rest ih =>
      cases hc : isclose m it.2 relTolDefault (1 / 100) with
      | true =>
          rw [lmpRowFold_cons_true hc, ih, matches01_cons_true hc, mem_keysE_updEntry]
          constructor
          · rintro ((h1 | h1) | h1)
            · exact Or.inr ⟨h1, by simp⟩
            · exact Or.inl h1
            · exact Or.inr ⟨h1.1, by simp⟩
          · rintro (h1 | h1)
            · exact Or.inl (Or.inr h1)
            · exact Or.inl (Or.inl h1.1)
      | false =>
          rw [lmpRowFold_cons_false hc, ih, matches01_cons_false hc]

theorem lookupE_lmpRowFold_ne {table : List (String × ℚ)} {k : Nat} {m : ℚ}
    {atoms : List (Nat × String)} {a : Nat} (h : a ≠ k) :
    lookupE (lmpRowFold table k m atoms) a = lookupE atoms a := by
  induction table generalizing atoms with
  | nil => rfl
  | cons it rest ih =>
      cases hc : isclose m it.2 relTolDefault (1 / 100) with
      | true => rw [lmpRowFold_cons_true hc, ih, lookupE_updEntry_ne h]
      | false => rw [lmpRowFold_cons_false hc, ih]

theorem lmpRowFold_of_no_match {table : List (String × ℚ)} {k : Nat} {m : ℚ}
    {atoms : List (Nat × String)} (h : matches01 table m = []) :
    lmpRowFold table k m atoms = atoms := by
  induction table generalizing atoms with
  | nil => rfl
  | cons it rest ih =>
      cases hc : isclose m it.2 relTolDefault (1 / 100) with
      | true =>
          rw [matches01_cons_true hc] at h
          exact absurd h (by simp)
      | false =>
          rw [matches01_cons_false hc] at h
          rw [lmpRowFold_cons_false hc, ih h]

theorem lookupE_lmpRowFold_self {table : List (String × ℚ)} {k : Nat} {m : ℚ}
    {atoms : List (Nat × String)} (h : matches01 table m ≠ []) :
    lookupE (lmpRowFold table k m atoms) k = (matches01 table m).getLast? := by
  induction table generalizing atoms with
  | nil => exact absurd rfl h
  | cons it rest ih =>
      cases hc : isclose m it.2 relTolDefault (1 / 100) with
      | true =>
          rw [lmpRowFold_cons_true hc, matches01_cons_true hc]
          by_cases h0 : matches01 rest m = []
          · rw [lmpRowFold_of_no_match h0, lookupE_updEntry_self, h0]
            simp
          · rw [ih h0]
            obtain ⟨b, l, hbl⟩ := List.exists_cons_of_ne_nil h0
            rw [hbl, List.getLast?_cons_cons]
      | false =>
          rw [lmpRowFold_cons_false hc]
          rw [matches01_cons_false hc] at h ⊢
          exact ih h

end Masses

set_option maxHeartbeats 3200000 in
theorem matchesFor_eval_247 : matchesFor MM_of_Elements 247 = ["Cm", "Bk"] := by
  norm_num [matchesFor, MM_of_Elements, isclose, relTolDefault, max_def, abs_eq_max_neg,
    List.filter_cons]

set_option maxHeartbeats 3200000 in
theorem matchesFor_eval_big : matchesFor MM_of_Elements 1000000 = [] := by
  norm_num [matchesFor, MM_of_Elements, isclose, relTolDefault, max_def, abs_eq_max_neg,
    List.filter_cons]

set_option maxHeartbeats 3200000 in
theorem matchesFor_eval_O : matchesFor MM_of_Elements (15.999 : ℚ) = ["O"] := by
  norm_num [matchesFor, MM_of_Elements, isclose, relTolDefault, max_def, abs_eq_max_neg,
    List.filter_cons]

set_option maxHeartbeats 3200000 in
theorem matches01_eval_247 : matches01 MM_of_Elements 247 = ["Cm", "Bk"] := by
  norm_num [matches01, MM_of_Elements, isclose, relTolDefault, max_def, abs_eq_max_neg,
    List.filter_cons]

theorem flatMap_length_le {α β : Type} (f : α → List β) (l : List α)
    (h : ∀ x ∈ l, (f x).length ≤ 1) : (l.flatMap f).length ≤ l.length := by
  induction l with
  | nil => simp
  | cons x rest ih =>
      rw [List.flatMap_cons, List.length_append, List.length_cons]
      have h1 := h x (List.mem_cons_self x rest)
      have h2 := ih fun y hy => h y (List.mem_cons_of_mem _ hy)
      omega

theorem flatMap_length_lt {α β : Type} (f : α → List β) (l : List α)
    (h : ∀ x ∈ l, (f x).length ≤ 1) (hex : ∃ x ∈ l, f x = []) :
    (l.flatMap f).length < l.length := by
  induction l with
  | nil => simp at hex
  | cons x rest ih =>
      rw [List.flatMap_cons, List.length_append, List.length_cons]
      obtain ⟨y, hy, hfy⟩ := hex
      have h1 := h x (List.mem_cons_self x rest)
      have hle := flatMap_length_le f rest fun z hz => h z (List.mem_cons_of_mem _ hz)
      rcases List.mem_cons.mp hy with rfl | hmem
      · rw [hfy]
        simpa using Nat.lt_succ_of_le hle
      · have hlt := ih (fun z hz => h z (List.mem_cons_of_mem _ hz)) ⟨y, hmem, hfy⟩
        omega

theorem flatMap_eq_map_headD {α β : Type} [Inhabited β] (f : α → List β) (l : List α)
    (h : ∀ x ∈ l, (f x).length = 1) :
    l.flatMap f = l.map fun x => (f x).headD default := by
  induction l with
  | nil => rfl
  | cons x rest ih =>
      obtain ⟨a, ha⟩ := List.length_eq_one.mp (h x (List.mem_cons_self x rest))
      rw [List.flatMap_cons, List.map_cons, ih fun y hy => h y (List.mem_cons_of_mem _ hy), ha]
      rfl

/-- Claim C6 (amended): `mass_to_name` fails (`InvalidMassError`, modelled as
`none`) whenever at least one input mass matches no element and every input
mass matches at most one element; and whenever it returns without error, the
returned name array has the same length as the input mass array. -/
theorem claim_C6 (masses : List ℚ) :
    ((∃ m ∈ masses, matchesFor MM_of_Elements m = []) →
      (∀ m ∈ masses, (matchesFor MM_of_Elements m).length ≤ 1) →
      mass_to_name MM_of_Elements masses = none)
    ∧ ∀ names, mass_to_name MM_of_Elements masses = some names →
        names.length = masses.length := by
  constructor
  · intro hex hall
    have hlt := flatMap_length_lt _ _ hall hex
    rw [mass_to_name, if_neg (Nat.ne_of_lt hlt)]
  · intro names h
    rw [mass_to_name] at h
    by_cases hc : (masses.flatMap fun mass => matchesFor MM_of_Elements mass).length
        = masses.length
    · rw [if_pos hc] at h
      cases h
      exact hc
    · rw [if_neg hc] at h
      cases h

/-- Counterexample to claim C6 as stated: the mass `1000000` matches no
element, yet `mass_to_name` does not fail on `[247, 1000000]`, because the
mass `247` matches two elements (Cm and Bk) and restores the length equality
that the assertion checks. -/
theorem claim_C6_counterexample :
    matchesFor MM_of_Elements 1000000 = [] ∧
    mass_to_name MM_of_Elements [247, 1000000] = some ["Cm", "Bk"] := by
  refine ⟨matchesFor_eval_big, ?_⟩
  simp [mass_to_name, matchesFor_eval_big, matchesFor_eval_247]

/-- Witness for claim C6 at a concrete input: on `[1000000]` (no element
within tolerance, no compensating double match) the function fails. -/
theorem claim_C6_witness : mass_to_name MM_of_Elements [1000000] = none := by
  refine (claim_C6 [1000000]).1 ⟨1000000, List.mem_singleton_self _, matchesFor_eval_big⟩ ?_
  intro m hm
  rw [List.mem_singleton] at hm
  subst hm
  rw [matchesFor_eval_big]
  decide

/-- Claim C7 (amended): when every input mass lies within tolerance 0.1 of
exactly one element's reference mass, `mass_to_name` returns the parallel
array of the (unique, hence first in table order) matching element symbols. -/
theorem claim_C7 (masses : List ℚ)
    (h : ∀ m ∈ masses, (matchesFor MM_of_Elements m).length = 1) :
    mass_to_name MM_of_Elements masses =
      some (masses.map fun m => (matchesFor MM_of_Elements m).headD default) := by
  have heq := flatMap_eq_map_headD (fun m => matchesFor MM_of_Elements m) masses h
  rw [mass_to_name, heq, if_pos (List.length_map _ _)]

/-- Counterexample to claim C7 as stated: the mass `247` lies within 0.1 of at
least one element's reference mass, yet `mass_to_name` does not return an
equal-length array on `[247]` — it fails, because both Cm and Bk match and the
inner loop appends every match, not just the first. -/
theorem claim_C7_counterexample :
    matchesFor MM_of_Elements 247 ≠ [] ∧
    mass_to_name MM_of_Elements [247] = none := by
  constructor
  · rw [matchesFor_eval_247]
    simp
  · simp [mass_to_name, matchesFor_eval_247]

/-- Witness for claim C7 at a concrete input: `15.999` matches exactly the
element O, and `mass_to_name` returns `["O"]`. -/
theorem claim_C7_witness : mass_to_name MM_of_Elements [(15.999 : ℚ)] = some ["O"] := by
  have h : ∀ m ∈ [(15.999 : ℚ)], (matchesFor MM_of_Elements m).length = 1 := by
    intro m hm
    rw [List.mem_singleton] at hm
    subst hm
    rw [matchesFor_eval_O]
    rfl
  rw [claim_C7 [(15.999 : ℚ)] h]
  simp [matchesFor_eval_O]

theorem lmp_fold_keys (T : List (String × ℚ)) (rows : List (Nat × ℚ))
    (acc : List (Nat × String)) (a : Nat) :
    a ∈ keysE (rows.foldl (fun acc rm => lmpRowFold T rm.1 rm.2 acc) acc) ↔
      a ∈ keysE acc ∨ ∃ m, (a, m) ∈ rows ∧ matches01 T m ≠ [] := by
  induction rows generalizing acc with
  | nil => simp
  | cons rm rest ih =>
      obtain ⟨k0, m0⟩ := rm
      rw [List.foldl_cons, ih, mem_keysE_lmpRowFold]
      constructor
      · rintro ((h1 | ⟨rfl, hne⟩) | ⟨m, hm, hne⟩)
        · exact Or.inl h1
        · exact Or.inr ⟨m0, List.mem_cons_self _ _, hne⟩
        · exact Or.inr ⟨m, List.mem_cons_of_mem _ hm, hne⟩
      · rintro (h1 | ⟨m, hm, hne⟩)
        · exact Or.inl (Or.inl h1)
        · rcases List.mem_cons.mp hm with heq | hmem
          · cases heq
            exact Or.inl (Or.inr ⟨rfl, hne⟩)
          · exact Or.inr ⟨m, hmem, hne⟩

/-- Claim C8: `lmp_mass_to_name` is total (the embedding is a plain function,
no failure case), and its key set is exactly the row indices whose mass lies
within 0.01 of at least one element's reference mass; unmatched rows are
silently absent. -/
theorem claim_C8 (rows : List (Nat × ℚ)) (k : Nat) :
    k ∈ keysE (lmp_mass_to_name MM_of_Elements rows) ↔
      ∃ m, (k, m) ∈ rows ∧ matches01 MM_of_Elements m ≠ [] := by
  rw [lmp_mass_to_name, lmp_fold_keys]
  simp [keysE]

theorem lmp_fold_lookup_ne (T : List (String × ℚ)) {rows : List (Nat × ℚ)}
    {acc : List (Nat × String)} {k : Nat} (h : k ∉ rows.map Prod.fst) :
    lookupE (rows.foldl (fun acc rm => lmpRowFold T rm.1 rm.2 acc) acc) k =
      lookupE acc k := by
  induction rows generalizing acc with
  | nil => rfl
  | cons rm rest ih =>
      rw [List.map_cons, List.mem_cons, not_or] at h
      rw [List.foldl_cons, ih h.2, lookupE_lmpRowFold_ne (fun hh => h.1 hh)]

theorem lmp_fold_lookup_mem (T : List (String × ℚ)) :
    ∀ (rows : List (Nat × ℚ)) (acc : List (Nat × String)) (k : Nat) (m : ℚ),
      (rows.map Prod.fst).Nodup → (k, m) ∈ rows → matches01 T m ≠ [] →
      lookupE (rows.foldl (fun acc rm => lmpRowFold T rm.1 rm.2 acc) acc) k =
        (matches01 T m).getLast? := by
  intro rows
  induction rows with
  | nil =>
      intro acc k m _ hmem
      simp at hmem
  | cons rm rest ih =>
      intro acc k m hnd hmem hnemp
      obtain ⟨k0, m0⟩ := rm
      rw [List.map_cons, List.nodup_cons] at hnd
      rw [List.foldl_cons]
      rcases List.mem_cons.mp hmem with heq | hmem2
      · cases heq
        rw [lmp_fold_lookup_ne T hnd.1]
        exact lookupE_lmpRowFold_self hnemp
      · exact ih _ k m hnd.2 hmem2 hnemp

/-- Claim C10: when a masses-table row lies within 0.01 of more than one
element's reference mass, `lmp_mass_to_name` maps that row to the last
matching element in table iteration order (every later match overwrites the
earlier one). -/
theorem claim_C10 (rows : List (Nat × ℚ)) (k : Nat) (m : ℚ)
    (hnd : (rows.map Prod.fst).Nodup) (hmem : (k, m) ∈ rows)
    (h2 : 2 ≤ (matches01 MM_of_Elements m).length) :
    lookupE (lmp_mass_to_name MM_of_Elements rows) k =
      (matches01 MM_of_Elements m).getLast? := by
  have hne : matches01 MM_of_Elements m ≠ [] := by
    intro h0
    rw [h0] at h2
    simp at h2
  rw [lmp_mass_to_name]
  exact lmp_fold_lookup_mem MM_of_Elements rows [] k m hnd hmem hne

/-- Witness for claim C10 at a concrete input: the row mass 247 matches both
Cm and Bk; the row is mapped to Bk, the later of the two in table order. -/
theorem claim_C10_witness :
    lookupE (lmp_mass_to_name MM_of_Elements [(1, 247)]) 1 = some "Bk" := by
  rw [claim_C10 [(1, 247)] 1 247 (by simp) (List.mem_singleton_self _)
    (by rw [matches01_eval_247]; decide)]
  rw [matches01_eval_247]
  rfl

section DataFiles

/-- Python `str.isnumeric` restricted to the ASCII word tokens produced by
the tokenizer below: nonempty and all digits. -/
def isNumericTok (s : String) : Bool := !s.data.isEmpty && s.data.all Char.isDigit

/-- Continuation of `pyIntValid` after a digit: digits, with single
underscores allowed only between digits. -/
def pyIntValidAux : List Char → Bool
  | [] => true
  | c :: cs =>
      if c.isDigit then pyIntValidAux cs
      else if c = '_' then
        match cs with
        | c2 :: cs2 => c2.isDigit && pyIntValidAux cs2
        | [] => false
      else false

/-- The ASCII word tokens accepted by Python `int()`: a nonempty digit string,
optionally with single underscores between digits. -/
def pyIntValid : List Char → Bool
  | [] => false
  | c :: cs => c.isDigit && pyIntValidAux cs

/-- The numeric value of such a token (underscores skipped). -/
def pyIntVal (cs : List Char) : Nat :=
  cs.foldl (fun n c => if c = '_' then n else n * 10 + (c.toNat - 48)) 0

/-- Python `int(s)` on an ASCII word token: its value, or `none` for the
`ValueError` raised on a malformed token. -/
def pyInt (s : String) : Option Nat :=
  if pyIntValid s.data then some (pyIntVal s.data) else none

/-- Python `s.startswith(p)` for a one-character prefix `p`. -/
def startsWith1 (s : String) (c : Char) : Bool :=
  match s.data with
  | [] => false
  | c0 :: _ => c0 = c

/-- `string.ascii_lowercase` as a character list. -/
def asciiLowercase : List Char := "abcdefghijklmnopqrstuvwxyz".toList

/-- A word character for `\w` in an ASCII regex: alphanumeric or underscore. -/
def isWordChar (c : Char) : Bool := c.isAlphanum || c = '_'

def tokenizeAux : List Char → List Char → List String
  | [], acc => if acc.isEmpty then [] else [String.mk acc.reverse]
  | c :: cs, acc =>
      if isWordChar c then tokenizeAux cs (c :: acc)
      else if acc.isEmpty then tokenizeAux cs []
      else String.mk acc.reverse :: tokenizeAux cs []

/-- Python `re.findall(r"\w+", s)` over ASCII text: the maximal runs of word
characters of `s`, in order. -/
def tokenizeWords (s : String) : List String := tokenizeAux s.toList []

/-- `[name + c for c in string.ascii_lowercase[0:frag]]`. -/
def branchNames (name : String) (frag : Nat) : List String :=
  (asciiLowercase.take frag).map fun c => name.push c

/-- `for i, n in enumerate(names): res_dict[n] = "same mass as resid " + str(start + i)`.
This inner loop is textually identical in `res_dict_from_datafile` and
`res_dict_from_lammpsdata`, so both embeddings share it. -/
def writeSameMass (rd : List (String × String)) (names : List String) (start : Int) :
    List (String × String) :=
  names.enum.foldl
    (fun rd p => updEntry rd p.2 ("same mass as resid " ++ toString (start + (p.1 : Int)))) rd

/-- The token-consuming loop of `res_dict_from_datafile`, over the token list
of the second line.  `none` models an uncaught Python exception: a
`StopIteration` escaping the loop when a token pair or a branched label is
truncated, or a `ValueError` from `int()` on a non-numeric count token. -/
def parseGroups : List String → Int → List (String × String) →
    Option (List (String × String))
  | [], _, rd => some rd
  | [_], _, _ => none
  | num :: name :: rest, idx, rd =>
      if isNumericTok name then
        match rest with
        | [] => none
        | realName :: rest2 =>
            match pyInt num, pyInt name with
            | some n, some frag =>
                parseGroups rest2 (idx + (n : Int) * (frag : Int))
                  (writeSameMass rd (branchNames realName frag) idx)
            | _, _ => none
      else
        match pyInt num with
        | some n =>
            parseGroups rest (idx + (n : Int))
              (updEntry rd name
                ("resid " ++ toString idx ++ "-" ++ toString (idx + (n : Int) - 1)))
        | none => none
termination_by structural ts _ _ => ts

/-- The outcomes of `res_dict_from_datafile`: an `IndexError` from accessing a
missing line, the explicit `ValueError` raised for a bad preamble (the
`FormatError` of the spec), or an uncaught exception while parsing tokens. -/
inductive DataFileError : Type
  | indexError : DataFileError
  | formatError : DataFileError
  | valueError : DataFileError
  deriving DecidableEq

/-- The exact first line required of the data file, newline included. -/
def generatorMarker : String := "Generated by pymatgen.io.lammps.data.LammpsData\n"

/-- `res_dict_from_datafile`, on the file's line list (`f.readlines()`).
`lines[0] == marker and lines[1].startswith("#")` short-circuits, so a
one-line file whose line differs from the marker reaches the `raise`
(`formatError`) while a one-line file equal to the marker fails with an
`IndexError` on `lines[1]`. -/
def res_dict_from_datafile : List String → Except DataFileError (List (String × String))
  | [] => Except.error DataFileError.indexError
  | [l0] =>
      if l0 == generatorMarker then Except.error DataFileError.indexError
      else Except.error DataFileError.formatError
  | l0 :: l1 :: _ =>
      if (l0 == generatorMarker) && startsWith1 l1 '#' then
        match parseGroups (tokenizeWords l1) 1 [] with
        | some rd => Except.ok rd
        | none => Except.error DataFileError.valueError
      else Except.error DataFileError.formatError

/-- The fields of a `CombinedData` object used by `res_dict_from_lammpsdata`;
`frags = none` models an object without the `frags` attribute. -/
structure CombinedData where
  names : List String
  nums : List Nat
  frags : Option (List Nat)

/-- The group loop of `res_dict_from_lammpsdata` over zipped
(name, num, frag) triples. -/
def lammpsGroups : List (String × Nat × Nat) → Int → List (String × String) →
    List (String × String)
  | [], _, rd => rd
  | (name, num, frag) :: rest, idx, rd =>
      if frag = 1 then
        lammpsGroups rest (idx + (num : Int))
          (updEntry rd name
            ("resid " ++ toString idx ++ "-" ++ toString (idx + (num : Int) - 1)))
      else
        lammpsGroups rest (idx + (num : Int) * (frag : Int))
          (writeSameMass rd (branchNames name frag) idx)

/-- `res_dict_from_lammpsdata`: reads counts and fragment counts from the
parallel arrays; without a `frags` attribute every group is non-branched. -/
def res_dict_from_lammpsdata (cd : CombinedData) : List (String × String) :=
  match cd.frags with
  | some frags => lammpsGroups (cd.names.zip (cd.nums.zip frags)) 1 []
  | none => lammpsGroups ((cd.names.zip cd.nums).map fun p => (p.1, p.2, 1)) 1 []

/-- The token list of a data-file header line encodes a group sequence:
each `(name, num, frag)` group is `count label` when `frag = 1` (with a
non-numeric label) and `count frag label` otherwise. -/
def encodesTokens : List String → List (String × Nat × Nat) → Bool
  | ts, [] => ts.isEmpty
  | [], _ :: _ => false
  | [_], _ :: _ => false
  | [numStr, name2], (name, num, frag) :: rest =>
      (frag == 1) && (pyInt numStr == some num) && !(isNumericTok name2) &&
        (name2 == name) && encodesTokens [] rest
  | numStr :: name2 :: name3 :: ts3, (name, num, frag) :: rest =>
      if frag == 1 then
        (pyInt numStr == some num) && !(isNumericTok name2) && (name2 == name) &&
          encodesTokens (name3 :: ts3) rest
      else
        (pyInt numStr == some num) && isNumericTok name2 && (pyInt name2 == some frag) &&
          (name3 == name) && encodesTokens ts3 rest

/-- A token list on which the token-consuming loop terminates without an
uncaught exception: complete pairs, numeric count tokens, and a label after
every numeric fragment marker. -/
def wfTokens : List String → Bool
  | [] => true
  | [_] => false
  | num :: name :: rest =>
      (pyInt num).isSome &&
      (if isNumericTok name then
        match rest with
        | [] => false
        | _ :: rest2 => wfTokens rest2
      else wfTokens rest)

/-- The two-line preamble contract: first line is the exact generator marker,
second line starts with a hash. -/
def preambleConforms : List String → Bool
  | l0 :: l1 :: _ => (l0 == generatorMarker) && startsWith1 l1 '#' 
  | _ => false

/-- Whether control reaches the preamble test's `raise` site at all: with no
lines, or with one line equal to the marker, an `IndexError` fires first. -/
def reachesFormatCheck : List String → Bool
  | [] => false
  | [l0] => !(l0 == generatorMarker)
  | _ :: _ :: _ => true

end DataFiles

section DataFileClaims

theorem pyIntValidAux_cons (c : Char) (cs : List Char) :
    pyIntValidAux (c :: cs) =
      if c.isDigit then pyIntValidAux cs
      else if c = '_' then
        match cs with
        | c2 :: cs2 => c2.isDigit && pyIntValidAux cs2
        | [] => false
      else false := by rw [pyIntValidAux.eq_def]

theorem parseGroups_nil (idx : Int) (rd : List (String × String)) :
    parseGroups [] idx rd = some rd := by rw [parseGroups.eq_def]

theorem parseGroups_single (t : String) (idx : Int) (rd : List (String × String)) :
    parseGroups [t] idx rd = none := by rw [parseGroups.eq_def]

theorem parseGroups_cons (num name : String) (rest : List String) (idx : Int)
    (rd : List (String × String)) :
    parseGroups (num :: name :: rest) idx rd =
      if isNumericTok name then
        match rest with
        | [] => none
        | realName :: rest2 =>
            match pyInt num, pyInt name with
            | some n, some frag =>
                parseGroups rest2 (idx + (n : Int) * (frag : Int))
                  (writeSameMass rd (branchNames realName frag) idx)
            | _, _ => none
      else
        match pyInt num with
        | some n =>
            parseGroups rest (idx + (n : Int))
              (updEntry rd name
                ("resid " ++ toString idx ++ "-" ++ toString (idx + (n : Int) - 1)))
        | none => none := by rw [parseGroups.eq_def]

theorem wfTokens_single (t : String) : wfTokens [t] = false := by rw [wfTokens.eq_def]

theorem wfTokens_cons (num name : String) (rest : List String) :
    wfTokens (num :: name :: rest) =
      ((pyInt num).isSome &&
        (if isNumericTok name then
          match rest with
          | [] => false
          | _ :: rest2 => wfTokens rest2
        else wfTokens rest)) := by rw [wfTokens.eq_def]

theorem encodesTokens_gs_nil (ts : List String) : encodesTokens ts [] = ts.isEmpty := by
  rw [encodesTokens.eq_def]
  cases ts with
  | nil => rfl
  | cons a tl =>
      cases tl with
      | nil => rfl
      | cons b tl2 => cases tl2 <;> rfl

theorem encodesTokens_ts_nil (g : String × Nat × Nat) (rest : List (String × Nat × Nat)) :
    encodesTokens [] (g :: rest) = false := by rw [encodesTokens.eq_def]

theorem encodesTokens_ts_single (t : String) (g : String × Nat × Nat)
    (rest : List (String × Nat × Nat)) :
    encodesTokens [t] (g :: rest) = false := by
  obtain ⟨name, num, frag⟩ := g
  rw [encodesTokens.eq_def]

theorem encodesTokens_two (numStr name2 : String) (name : String) (num frag : Nat)
    (rest : List (String × Nat × Nat)) :
    encodesTokens [numStr, name2] ((name, num, frag) :: rest) =
      ((frag == 1) && (pyInt numStr == some num) && !(isNumericTok name2) &&
        (name2 == name) && encodesTokens [] rest) := by
  rw [encodesTokens.eq_def]

theorem encodesTokens_cons3 (numStr name2 name3 : String) (ts3 : List String)
    (name : String) (num frag : Nat) (rest : List (String × Nat × Nat)) :
    encodesTokens (numStr :: name2 :: name3 :: ts3) ((name, num, frag) :: rest) =
      (if frag == 1 then
        (pyInt numStr == some num) && !(isNumericTok name2) && (name2 == name) &&
          encodesTokens (name3 :: ts3) rest
      else
        (pyInt numStr == some num) && isNumericTok name2 && (pyInt name2 == some frag) &&
          (name3 == name) && encodesTokens ts3 rest) := by
  rw [encodesTokens.eq_def]

theorem lammpsGroups_nil (idx : Int) (rd : List (String × String)) :
    lammpsGroups [] idx rd = rd := by rw [lammpsGroups.eq_def]

theorem lammpsGroups_cons (name : String) (num frag : Nat)
    (rest : List (String × Nat × Nat)) (idx : Int) (rd : List (String × String)) :
    lammpsGroups ((name, num, frag) :: rest) idx rd =
      if frag = 1 then
        lammpsGroups rest (idx + (num : Int))
          (updEntry rd name
            ("resid " ++ toString idx ++ "-" ++ toString (idx + (num : Int) - 1)))
      else
        lammpsGroups rest (idx + (num : Int) * (frag : Int))
          (writeSameMass rd (branchNames name frag) idx) := by rw [lammpsGroups.eq_def]

theorem res_dict_from_datafile_nil :
    res_dict_from_datafile [] = Except.error DataFileError.indexError := by rw [res_dict_from_datafile.eq_def]

theorem res_dict_from_datafile_single (l0 : String) :
    res_dict_from_datafile [l0] =
      if l0 == generatorMarker then Except.error DataFileError.indexError
      else Except.error DataFileError.formatError := by rw [res_dict_from_datafile.eq_def]

theorem res_dict_from_datafile_cons2 (l0 l1 : String) (rest : List String) :
    res_dict_from_datafile (l0 :: l1 :: rest) =
      if (l0 == generatorMarker) && startsWith1 l1 '#' then
        match parseGroups (tokenizeWords l1) 1 [] with
        | some rd => Except.ok rd
        | none => Except.error DataFileError.valueError
      else Except.error DataFileError.formatError := by rw [res_dict_from_datafile.eq_def]

theorem preambleConforms_cons2 (l0 l1 : String) (rest : List String) :
    preambleConforms (l0 :: l1 :: rest) = ((l0 == generatorMarker) && startsWith1 l1 '#') := by rw [preambleConforms.eq_def]

theorem preambleConforms_single (l0 : String) : preambleConforms [l0] = false := by rw [preambleConforms.eq_def]

theorem reachesFormatCheck_single (l0 : String) :
    reachesFormatCheck [l0] = !(l0 == generatorMarker) := by rw [reachesFormatCheck.eq_def]

theorem pyIntValidAux_of_all_digits :
    ∀ cs : List Char, cs.all Char.isDigit = true → pyIntValidAux cs = true := by
  intro cs h
  induction cs with
  | nil => rfl
  | cons c rest ih =>
      rw [List.all_cons, Bool.and_eq_true] at h
      rw [pyIntValidAux_cons, if_pos h.1]
      exact ih h.2

theorem pyInt_isSome_of_isNumericTok {s : String} (h : isNumericTok s = true) :
    ∃ n, pyInt s = some n := by
  rw [isNumericTok, Bool.and_eq_true] at h
  obtain ⟨hne, hall⟩ := h
  refine ⟨pyIntVal s.data, ?_⟩
  rw [pyInt, if_pos ?_]
  cases hd : s.data with
  | nil => rw [hd] at hne; simp at hne
  | cons c rest =>
      rw [hd] at hall
      rw [List.all_cons, Bool.and_eq_true] at hall
      rw [pyIntValid, Bool.and_eq_true]
      exact ⟨hall.1, pyIntValidAux_of_all_digits rest hall.2⟩

/-- Claim C5: the branched and non-branched allocation steps of the header
token loop.  A pair whose second token is the numeral "2" with count token for
N and label "EC" records "ECa" and "ECb" as mass-equivalence selections at the
cursor and the cursor plus one, and advances the cursor by 2N; a pair with a
non-numeric label L records a contiguous resid range of length N and advances
the cursor by N. -/
theorem claim_C5 :
    (∀ (numStr : String) (N : Nat) (rest : List String) (s : Int)
        (rd : List (String × String)),
      pyInt numStr = some N →
      parseGroups (numStr :: "2" :: "EC" :: rest) s rd =
        parseGroups rest (s + 2 * (N : Int))
          (updEntry (updEntry rd "ECa" ("same mass as resid " ++ toString s))
            "ECb" ("same mass as resid " ++ toString (s + 1))))
    ∧ ∀ (numStr L : String) (N : Nat) (rest : List String) (s : Int)
        (rd : List (String × String)),
      pyInt numStr = some N → isNumericTok L = false →
      parseGroups (numStr :: L :: rest) s rd =
        parseGroups rest (s + (N : Int))
          (updEntry rd L
            ("resid " ++ toString s ++ "-" ++ toString (s + (N : Int) - 1))) := by
  constructor
  · intro numStr N rest s rd h
    rw [parseGroups_cons, if_pos (show isNumericTok "2" = true from rfl)]
    show (match pyInt numStr, pyInt "2" with
      | some n, some frag =>
          parseGroups rest (s + (n : Int) * (frag : Int))
            (writeSameMass rd (branchNames "EC" frag) s)
      | _, _ => none) = _
    rw [h, show pyInt "2" = some 2 from rfl]
    show parseGroups rest (s + (N : Int) * ((2 : Nat) : Int))
      (writeSameMass rd (branchNames "EC" 2) s) = _
    have harg : s + (N : Int) * ((2 : Nat) : Int) = s + 2 * (N : Int) := by
      push_cast
      ring
    have hw : writeSameMass rd (branchNames "EC" 2) s =
        updEntry (updEntry rd "ECa" ("same mass as resid " ++ toString s))
          "ECb" ("same mass as resid " ++ toString (s + 1)) := by
      show updEntry
          (updEntry rd "ECa" ("same mass as resid " ++ toString (s + ((0 : Nat) : Int))))
          "ECb" ("same mass as resid " ++ toString (s + ((1 : Nat) : Int))) = _
      norm_num
    rw [harg, hw]
  · intro numStr L N rest s rd h hL
    rw [parseGroups_cons, if_neg (by rw [hL]; exact Bool.false_ne_true)]
    show (match pyInt numStr with
      | some n =>
          parseGroups rest (s + (n : Int))
            (updEntry rd L
              ("resid " ++ toString s ++ "-" ++ toString (s + (n : Int) - 1)))
      | none => none) = _
    rw [h]

/-- Witness for claim C5 at concrete inputs: one branched pair and one
non-branched pair, from cursor 1. -/
theorem claim_C5_witness :
    parseGroups ["5", "2", "EC"] 1 [] =
      some [("ECa", "same mass as resid 1"), ("ECb", "same mass as resid 2")] ∧
    parseGroups ["3", "SOL"] 1 [] = some [("SOL", "resid 1-3")] := by
  constructor
  · rw [claim_C5.1 "5" 5 [] 1 [] rfl]
    rfl
  · rw [claim_C5.2 "3" "SOL" 3 [] 1 [] rfl rfl]
    rfl

theorem encodesTokens_cons3_one (numStr name2 name3 : String) (ts3 : List String)
    (name : String) (num : Nat) (rest : List (String × Nat × Nat)) :
    encodesTokens (numStr :: name2 :: name3 :: ts3) ((name, num, 1) :: rest) =
      ((pyInt numStr == some num) && !(isNumericTok name2) && (name2 == name) &&
        encodesTokens (name3 :: ts3) rest) := by
  rw [encodesTokens_cons3]
  simp only [Nat.beq_eq_true_eq, if_true]

theorem encodesTokens_cons3_ne (numStr name2 name3 : String) (ts3 : List String)
    (name : String) (num frag : Nat) (rest : List (String × Nat × Nat))
    (hf : frag ≠ 1) :
    encodesTokens (numStr :: name2 :: name3 :: ts3) ((name, num, frag) :: rest) =
      ((pyInt numStr == some num) && isNumericTok name2 && (pyInt name2 == some frag) &&
        (name3 == name) && encodesTokens ts3 rest) := by
  rw [encodesTokens_cons3]
  simp only [Nat.beq_eq_true_eq]
  rw [if_neg hf]

theorem parseGroups_encodes :
    ∀ (gs : List (String × Nat × Nat)) (ts : List String) (idx : Int)
      (rd : List (String × String)),
      encodesTokens ts gs = true → parseGroups ts idx rd = some (lammpsGroups gs idx rd) := by
  intro gs
  induction gs with
  | nil =>
      intro ts idx rd h
      rw [encodesTokens_gs_nil] at h
      rw [List.isEmpty_iff.mp h]
      rw [parseGroups_nil, lammpsGroups_nil]
  | cons g rest ih =>
      obtain ⟨name, num, frag⟩ := g
      intro ts idx rd h
      cases ts with
      | nil => rw [encodesTokens_ts_nil] at h; exact absurd h Bool.false_ne_true
      | cons numStr ts1 =>
          cases ts1 with
          | nil =>
              rw [encodesTokens_ts_single] at h
              exact absurd h Bool.false_ne_true
          | cons name2 ts2 =>
              cases ts2 with
              | nil =>
                  rw [encodesTokens_two, Bool.and_eq_true, Bool.and_eq_true,
                    Bool.and_eq_true, Bool.and_eq_true] at h
                  obtain ⟨⟨⟨⟨hf, hnum⟩, hnn⟩, hname⟩, henc⟩ := h
                  rw [beq_iff_eq] at hnum hname
                  rw [Nat.beq_eq_true_eq] at hf
                  rw [Bool.not_eq_eq_eq_not, Bool.not_true] at hnn
                  subst hname
                  subst hf
                  rw [parseGroups_cons, if_neg (by rw [hnn]; exact Bool.false_ne_true)]
                  show (match pyInt numStr with
                    | some n =>
                        parseGroups [] (idx + (n : Int))
                          (updEntry rd name2
                            ("resid " ++ toString idx ++ "-" ++
                              toString (idx + (n : Int) - 1)))
                    | none => none) = _
                  rw [hnum]
                  show parseGroups [] (idx + (num : Int))
                    (updEntry rd name2
                      ("resid " ++ toString idx ++ "-" ++
                        toString (idx + (num : Int) - 1))) = _
                  rw [ih [] _ _ henc, lammpsGroups_cons, if_pos rfl]
              | cons name3 ts3 =>
                  by_cases hf : frag = 1
                  · subst hf
                    rw [encodesTokens_cons3_one, Bool.and_eq_true, Bool.and_eq_true,
                      Bool.and_eq_true] at h
                    obtain ⟨⟨⟨hnum, hnn⟩, hname⟩, henc⟩ := h
                    rw [beq_iff_eq] at hnum hname
                    rw [Bool.not_eq_eq_eq_not, Bool.not_true] at hnn
                    subst hname
                    rw [parseGroups_cons, if_neg (by rw [hnn]; exact Bool.false_ne_true)]
                    show (match pyInt numStr with
                      | some n =>
                          parseGroups (name3 :: ts3) (idx + (n : Int))
                            (updEntry rd name2
                              ("resid " ++ toString idx ++ "-" ++
                                toString (idx + (n : Int) - 1)))
                      | none => none) = _
                    rw [hnum]
                    show parseGroups (name3 :: ts3) (idx + (num : Int))
                      (updEntry rd name2
                        ("resid " ++ toString idx ++ "-" ++
                          toString (idx + (num : Int) - 1))) = _
                    rw [ih (name3 :: ts3) _ _ henc, lammpsGroups_cons, if_pos rfl]
                  · rw [encodesTokens_cons3_ne _ _ _ _ _ _ _ _ hf, Bool.and_eq_true,
                      Bool.and_eq_true, Bool.and_eq_true, Bool.and_eq_true] at h
                    obtain ⟨⟨⟨⟨hnum, hfn⟩, hfv⟩, hname⟩, henc⟩ := h
                    rw [beq_iff_eq] at hnum hfv hname
                    subst hname
                    rw [parseGroups_cons, if_pos hfn]
                    show (match pyInt numStr, pyInt name2 with
                      | some n, some fragv =>
                          parseGroups ts3 (idx + (n : Int) * (fragv : Int))
                            (writeSameMass rd (branchNames name3 fragv) idx)
                      | _, _ => none) = _
                    rw [hnum, hfv]
                    show parseGroups ts3 (idx + (num : Int) * (frag : Int))
                      (writeSameMass rd (branchNames name3 frag) idx) = _
                    rw [ih ts3 _ _ henc, lammpsGroups_cons, if_neg hf]

theorem zip_proj (gs : List (String × Nat × Nat)) :
    (gs.map fun g => g.1).zip (((gs.map fun g => g.2.1)).zip (gs.map fun g => g.2.2)) = gs := by
  induction gs with
  | nil => rfl
  | cons g rest ih =>
      obtain ⟨a, b, c⟩ := g
      simp only [List.map_cons, List.zip_cons_cons, ih]

/-- Claim C4: cross-entry-point equivalence.  For a data file whose preamble
conforms and whose second line's tokens encode a group sequence, and a
CombinedData whose parallel arrays encode the same groups,
`res_dict_from_datafile` and `res_dict_from_lammpsdata` return the same
res_dict (same keys, same values, same insertion order). -/
theorem claim_C4 (l0 l1 : String) (rest : List String) (gs : List (String × Nat × Nat))
    (cd : CombinedData)
    (h0 : l0 = generatorMarker) (h1 : startsWith1 l1 '#' = true)
    (ht : encodesTokens (tokenizeWords l1) gs = true)
    (hn : cd.names = gs.map fun g => g.1) (hm : cd.nums = gs.map fun g => g.2.1)
    (hf : cd.frags = some (gs.map fun g => g.2.2)) :
    res_dict_from_datafile (l0 :: l1 :: rest) =
      Except.ok (res_dict_from_lammpsdata cd) := by
  subst h0
  rw [res_dict_from_datafile_cons2, if_pos (by rw [h1, beq_self_eq_true]; rfl)]
  rw [parseGroups_encodes gs _ 1 [] ht]
  rw [res_dict_from_lammpsdata, hf, hn, hm]
  show Except.ok (lammpsGroups gs 1 []) =
    Except.ok (lammpsGroups
      ((gs.map fun g => g.1).zip (((gs.map fun g => g.2.1)).zip (gs.map fun g => g.2.2)))
      1 [])
  rw [zip_proj]

/-- Witness for claim C4 at a concrete input pair: the header
`# 10 water 5 2 EC` and the parallel arrays (["water", "EC"], [10, 5], [1, 2]). -/
theorem claim_C4_witness :
    res_dict_from_datafile
        ["Generated by pymatgen.io.lammps.data.LammpsData\n", "# 10 water 5 2 EC\n"] =
      Except.ok (res_dict_from_lammpsdata ⟨["water", "EC"], [10, 5], some [1, 2]⟩) :=
  claim_C4 generatorMarker "# 10 water 5 2 EC\n" [] [("water", 10, 1), ("EC", 5, 2)]
    ⟨["water", "EC"], [10, 5], some [1, 2]⟩ rfl rfl rfl rfl rfl rfl

theorem parseGroups_wf :
    ∀ ts : List String, wfTokens ts = true →
      ∀ (idx : Int) (rd : List (String × String)),
        ∃ rd2, parseGroups ts idx rd = some rd2
  | [], _, _, rd => ⟨rd, rfl⟩
  | [t], h, _, _ => by rw [wfTokens_single] at h; exact absurd h Bool.false_ne_true
  | num :: name :: rest, h, idx, rd => by
      rw [wfTokens_cons, Bool.and_eq_true] at h
      obtain ⟨hnum, hrest⟩ := h
      obtain ⟨n, hn⟩ := Option.isSome_iff_exists.mp hnum
      cases hname : isNumericTok name with
      | true =>
          rw [if_pos (by rw [hname])] at hrest
          cases rest with
          | nil => exact absurd hrest Bool.false_ne_true
          | cons realName rest2 =>
              obtain ⟨f, hfv⟩ := pyInt_isSome_of_isNumericTok hname
              rw [parseGroups_cons, if_pos hname]
              show ∃ rd2, (match pyInt num, pyInt name with
                | some n, some frag =>
                    parseGroups rest2 (idx + (n : Int) * (frag : Int))
                      (writeSameMass rd (branchNames realName frag) idx)
                | _, _ => none) = some rd2
              rw [hn, hfv]
              exact parseGroups_wf rest2 hrest _ _
      | false =>
          rw [if_neg (by rw [hname]; exact Bool.false_ne_true)] at hrest
          rw [parseGroups_cons, if_neg (by rw [hname]; exact Bool.false_ne_true)]
          show ∃ rd2, (match pyInt num with
            | some n =>
                parseGroups rest (idx + (n : Int))
                  (updEntry rd name
                    ("resid " ++ toString idx ++ "-" ++ toString (idx + (n : Int) - 1)))
            | none => none) = some rd2
          rw [hn]
          exact parseGroups_wf rest hrest _ _

/-- Claim C9 (amended): the spec's `FormatError` (the explicit `raise` for a
bad preamble) fires exactly when control reaches the preamble test and the
preamble does not conform; an empty file, or a one-line file whose line equals
the marker, fails with an `IndexError` instead.  When the preamble conforms
and the second line's tokens are well formed, no error is raised and a
res_dict is produced. -/
theorem claim_C9 (lines : List String) :
    (res_dict_from_datafile lines = Except.error DataFileError.formatError ↔
      reachesFormatCheck lines = true ∧ preambleConforms lines = false)
    ∧ ∀ l0 l1 rest, lines = l0 :: l1 :: rest → preambleConforms lines = true →
        wfTokens (tokenizeWords l1) = true →
        ∃ rd, res_dict_from_datafile lines = Except.ok rd := by
  constructor
  · cases lines with
    | nil =>
        rw [res_dict_from_datafile_nil]
        simp [reachesFormatCheck]
    | cons l0 tl =>
        cases tl with
        | nil =>
            rw [res_dict_from_datafile_single, reachesFormatCheck_single,
              preambleConforms_single]
            cases hm : l0 == generatorMarker with
            | true => rw [if_pos rfl]; simp
            | false => rw [if_neg Bool.false_ne_true]; simp
        | cons l1 tl2 =>
            rw [res_dict_from_datafile_cons2, preambleConforms_cons2]
            cases hp : (l0 == generatorMarker) && startsWith1 l1 '#' with
            | true =>
                rw [if_pos rfl]
                cases hpg : parseGroups (tokenizeWords l1) 1 [] with
                | none => simp [reachesFormatCheck]
                | some rd => simp [reachesFormatCheck]
            | false =>
                rw [if_neg Bool.false_ne_true]
                simp [reachesFormatCheck]
  · intro l0 l1 rest heq hpre hwf
    subst heq
    rw [preambleConforms_cons2] at hpre
    rw [res_dict_from_datafile_cons2, if_pos (by rw [hpre])]
    obtain ⟨rd2, hrd2⟩ := parseGroups_wf (tokenizeWords l1) hwf 1 []
    rw [hrd2]
    exact ⟨rd2, rfl⟩

/-- Counterexample to claim C9 as stated: a file with a conforming preamble
whose parse nevertheless fails (so no res_dict is produced), and a
nonconforming empty file that fails with an `IndexError`, not the
`FormatError`. -/
theorem claim_C9_counterexample :
    (preambleConforms
        ["Generated by pymatgen.io.lammps.data.LammpsData\n", "# abc def\n"] = true ∧
      res_dict_from_datafile
          ["Generated by pymatgen.io.lammps.data.LammpsData\n", "# abc def\n"] =
        Except.error DataFileError.valueError)
    ∧ (preambleConforms ([] : List String) = false ∧
      res_dict_from_datafile [] = Except.error DataFileError.indexError) :=
  ⟨⟨rfl, rfl⟩, ⟨rfl, rfl⟩⟩

/-- Witness for claim C9 at a concrete input: a conforming two-line file with
well-formed tokens parses to a res_dict. -/
theorem claim_C9_witness :
    ∃ rd, res_dict_from_datafile
        ["Generated by pymatgen.io.lammps.data.LammpsData\n", "# 10 water 5 2 EC\n"] =
      Except.ok rd :=
  (claim_C9 _).2 "Generated by pymatgen.io.lammps.data.LammpsData\n" "# 10 water 5 2 EC\n"
    [] rfl rfl rfl

end DataFileClaims

section UniverseModel

/-- The per-atom data used by the classifier: MDAnalysis atom name, atom type
and partial charge. -/
structure Atom where
  name : String
  type : String
  charge : ℚ
  deriving DecidableEq, Inhabited

/-- A residue as the classifier sees it: its assigned resname, its atoms, and
the bonded-fragment partition of its atoms (`residue.atoms.fragments`). -/
structure Residue where
  resname : String
  atoms : List Atom
  fragments : List (List Atom)
  deriving DecidableEq

/-- Scan tracking the running best of `np.argmax` over charges: a later atom
replaces the best only when strictly more charged, so the first maximum wins. -/
def maxChargeAtomAux : Atom → List Atom → Atom
  | best, [] => best
  | best, a :: rest =>
      if a.charge > best.charge then maxChargeAtomAux a rest
      else maxChargeAtomAux best rest

/-- `ion.atoms[np.argmax(ion.atoms.charges)]` (first maximum on ties). -/
def maxChargeAtom : List Atom → Atom
  | [] => default
  | a :: rest => maxChargeAtomAux a rest

/-- Scan for `np.argmin` over charges (first minimum on ties). -/
def minChargeAtomAux : Atom → List Atom → Atom
  | best, [] => best
  | best, a :: rest =>
      if a.charge < best.charge then minChargeAtomAux a rest
      else minChargeAtomAux best rest

/-- `atoms[np.argmin(atoms.charges)]` (first minimum on ties). -/
def minChargeAtom : List Atom → Atom
  | [] => default
  | a :: rest => minChargeAtomAux a rest

/-- Lexicographic comparison of code-point lists, the order numpy sorts
strings by. -/
def charListLe : List Char → List Char → Bool
  | [], _ => true
  | _ :: _, [] => false
  | a :: as, b :: bs =>
      if a < b then true
      else if b < a then false
      else charListLe as bs

def insertSorted (x : String) : List String → List String
  | [] => [x]
  | y :: ys => if charListLe x.data y.data then x :: y :: ys else y :: insertSorted x ys

def sortStrings (l : List String) : List String := l.foldr insertSorted []

/-- `np.unique` on a string array: the distinct values in sorted order. -/
def npUnique (l : List String) : List String := sortStrings l.dedup

/-- `np.unique(atoms.types)`: the distinct atom types, sorted. -/
def uniqueTypes (atoms : List Atom) : List String := npUnique (atoms.map fun a => a.type)

/-- The population count of one type among the atoms (`return_counts=True`). -/
def typeCount (atoms : List Atom) (t : String) : Nat :=
  (atoms.filter fun a => a.type == t).length

/-- Scan for `np.argmin` over the per-type counts (first minimum on ties). -/
def uniCenterAux (atoms : List Atom) : String → List String → String
  | best, [] => best
  | best, t :: rest =>
      if typeCount atoms t < typeCount atoms best then uniCenterAux atoms t rest
      else uniCenterAux atoms best rest

/-- `unique_types[0][np.argmin(unique_types[1])]`: the rarest atom type, ties
broken by sorted-type order. -/
def uniCenter (atoms : List Atom) : String :=
  match uniqueTypes atoms with
  | [] => ""
  | t :: rest => uniCenterAux atoms t rest

/-- The canonical key of an ion entry:
`"cation" if number == 0 else "cation_" + str(number)`, and the anion
counterpart. -/
def ionName (positive : Bool) (number : Nat) : String :=
  if positive then (if number = 0 then "cation" else "cation_" ++ toString number)
  else (if number = 0 then "anion" else "anion_" ++ toString number)

/-- The extremal-charge representative: most positive atom of a cation, most
negative atom of an anion. -/
def extremalAtom (positive : Bool) (atoms : List Atom) : Atom :=
  if positive then maxChargeAtom atoms else minChargeAtom atoms

/-- The entries `extract_atom_from_ion` records into select_dict, in order.
`len(ion.atoms.types) == 1` is a length-one array of per-atom types, i.e. a
one-atom ion. -/
def extract_atom_from_ion (positive : Bool) (atoms : List Atom) (number : Nat) :
    List (String × String) :=
  if positive then
    if atoms.length = 1 then
      [(ionName true number, "type " ++ (atoms.headD default).type)]
    else
      if (maxChargeAtom atoms).type = uniCenter atoms then
        [(ionName true number, "type " ++ uniCenter atoms)]
      else
        [(ionName true number ++ "_" ++ (maxChargeAtom atoms).name ++
            (maxChargeAtom atoms).type, "type " ++ (maxChargeAtom atoms).type),
          (ionName true number, "type " ++ uniCenter atoms)]
  else
    if atoms.length = 1 then
      [(ionName false number, "type " ++ (atoms.headD default).type)]
    else
      if (minChargeAtom atoms).type = uniCenter atoms then
        [(ionName false number, "type " ++ uniCenter atoms)]
      else
        [(ionName false number ++ "_" ++ (minChargeAtom atoms).name ++
            (minChargeAtom atoms).type, "type " ++ (minChargeAtom atoms).type),
          (ionName false number, "type " ++ uniCenter atoms)]

/-- The entry `extract_atom_from_molecule` records: the (possibly numbered)
resname mapped to the type of the minimum-charge atom. -/
def extract_atom_from_molecule (resname : String) (atoms : List Atom) (number : Nat) :
    List (String × String) :=
  [(if number > 0 then resname ++ "_" ++ toString number else resname,
    "type " ++ (minChargeAtom atoms).type)]

/-- `np.sum(frag.charges)`. -/
def fragCharge (f : List Atom) : ℚ := (f.map fun a => a.charge).sum

/-- `residue.charge`, the sum of the residue's atom charges. -/
def residueCharge (r : Residue) : ℚ := (r.atoms.map fun a => a.charge).sum

/-- The body of `select_dict_from_resname` for one representative residue:
near-zero total charge dispatches on the fragment count, otherwise the charge
sign decides cation or anion. -/
def classifyResidue (resname : String) (residue : Residue)
    (sd : List (String × String)) : List (String × String) :=
  if |residueCharge residue| ≤ 1 / 100000 then
    if residue.fragments.length = 2 then
      residue.fragments.enum.foldl
        (fun d p =>
          if fragCharge p.2 > 1 / 1000 then
            applyEntries d (extract_atom_from_ion true p.2 0)
          else if fragCharge p.2 < -(1 / 1000) then
            applyEntries d (extract_atom_from_ion false p.2 0)
          else applyEntries d (extract_atom_from_molecule resname p.2 (p.1 + 1))) sd
    else if 2 ≤ residue.fragments.length then
      (residue.fragments.foldl
        (fun (st : (Nat × Nat × Nat) × List (String × String)) frag =>
          if fragCharge frag > 1 / 1000 then
            ((st.1.1 + 1, st.1.2.1, st.1.2.2),
              applyEntries st.2 (extract_atom_from_ion true frag st.1.1))
          else if fragCharge frag < -(1 / 1000) then
            ((st.1.1, st.1.2.1 + 1, st.1.2.2),
              applyEntries st.2 (extract_atom_from_ion false frag st.1.2.1))
          else
            ((st.1.1, st.1.2.1, st.1.2.2 + 1),
              applyEntries st.2 (extract_atom_from_molecule resname frag st.1.2.2)))
        ((1, 1, 1), sd)).2
    else applyEntries sd (extract_atom_from_molecule resname residue.atoms 0)
  else if residueCharge residue > 0 then
    applyEntries sd (extract_atom_from_ion true residue.atoms 0)
  else applyEntries sd (extract_atom_from_ion false residue.atoms 0)

/-- One iteration of `select_dict_from_resname`: skip the empty resname, look
up the first residue carrying the resname, classify it. -/
def sdrStep (u : List Residue) (sd : List (String × String)) (rn : String) :
    List (String × String) :=
  if rn = "" then sd
  else
    match u.find? (fun r => r.resname == rn) with
    | some residue => classifyResidue rn residue sd
    | none => sd

/-- `select_dict_from_resname`: iterate over the sorted unique resnames of the
universe, classifying the first residue of each. -/
def select_dict_from_resname (u : List Residue) : List (String × String) :=
  (npUnique (u.map fun r => r.resname)).foldl (sdrStep u) []

end UniverseModel

section UniverseLemmas

theorem maxChargeAtomAux_mem (best : Atom) (l : List Atom) :
    maxChargeAtomAux best l ∈ best :: l := by
  induction l generalizing best with
  | nil => simp [maxChargeAtomAux]
  | cons a rest ih =>
      rw [maxChargeAtomAux]
      by_cases h : a.charge > best.charge
      · rw [if_pos h]
        exact List.mem_cons_of_mem best (ih a)
      · rw [if_neg h]
        rcases List.mem_cons.mp (ih best) with h1 | h1
        · exact List.mem_cons.mpr (Or.inl h1)
        · exact List.mem_cons.mpr (Or.inr (List.mem_cons_of_mem a h1))

theorem minChargeAtomAux_mem (best : Atom) (l : List Atom) :
    minChargeAtomAux best l ∈ best :: l := by
  induction l generalizing best with
  | nil => simp [minChargeAtomAux]
  | cons a rest ih =>
      rw [minChargeAtomAux]
      by_cases h : a.charge < best.charge
      · rw [if_pos h]
        exact List.mem_cons_of_mem best (ih a)
      · rw [if_neg h]
        rcases List.mem_cons.mp (ih best) with h1 | h1
        · exact List.mem_cons.mpr (Or.inl h1)
        · exact List.mem_cons.mpr (Or.inr (List.mem_cons_of_mem a h1))

theorem maxChargeAtom_mem {atoms : List Atom} (h : atoms ≠ []) :
    maxChargeAtom atoms ∈ atoms := by
  cases atoms with
  | nil => exact absurd rfl h
  | cons a rest => exact maxChargeAtomAux_mem a rest

theorem minChargeAtom_mem {atoms : List Atom} (h : atoms ≠ []) :
    minChargeAtom atoms ∈ atoms := by
  cases atoms with
  | nil => exact absurd rfl h
  | cons a rest => exact minChargeAtomAux_mem a rest

theorem mem_insertSorted {x a : String} {l : List String} :
    a ∈ insertSorted x l ↔ a = x ∨ a ∈ l := by
  induction l with
  | nil => simp [insertSorted]
  | cons y ys ih =>
      rw [insertSorted]
      by_cases h : charListLe x.data y.data
      · rw [if_pos h]
        simp
      · rw [if_neg h]
        simp only [List.mem_cons, ih]
        tauto

theorem length_insertSorted (x : String) (l : List String) :
    (insertSorted x l).length = l.length + 1 := by
  induction l with
  | nil => rfl
  | cons y ys ih =>
      rw [insertSorted]
      by_cases h : charListLe x.data y.data
      · rw [if_pos h]
        simp
      · rw [if_neg h]
        simp [ih]

theorem nodup_insertSorted {x : String} {l : List String}
    (hx : x ∉ l) (hl : l.Nodup) : (insertSorted x l).Nodup := by
  induction l with
  | nil => simp [insertSorted]
  | cons y ys ih =>
      rw [List.mem_cons, not_or] at hx
      rw [List.nodup_cons] at hl
      rw [insertSorted]
      by_cases h : charListLe x.data y.data
      · rw [if_pos h, List.nodup_cons, List.nodup_cons]
        refine ⟨fun hm => ?_, hl⟩
        rcases List.mem_cons.mp hm with h1 | h1
        · exact hx.1 h1
        · exact hx.2 h1
      · rw [if_neg h, List.nodup_cons]
        refine ⟨fun hm => ?_, ih hx.2 hl.2⟩
        rcases mem_insertSorted.mp hm with h1 | h1
        · exact hx.1 h1.symm
        · exact hl.1 h1

theorem mem_sortStrings {a : String} {l : List String} :
    a ∈ sortStrings l ↔ a ∈ l := by
  induction l with
  | nil => simp [sortStrings]
  | cons x xs ih =>
      show a ∈ insertSorted x (sortStrings xs) ↔ _
      rw [mem_insertSorted, ih, List.mem_cons]

theorem length_sortStrings (l : List String) : (sortStrings l).length = l.length := by
  induction l with
  | nil => rfl
  | cons x xs ih =>
      show (insertSorted x (sortStrings xs)).length = _
      rw [length_insertSorted, ih, List.length_cons]

theorem nodup_sortStrings {l : List String} (h : l.Nodup) : (sortStrings l).Nodup := by
  induction l with
  | nil => simp [sortStrings]
  | cons x xs ih =>
      rw [List.nodup_cons] at h
      show (insertSorted x (sortStrings xs)).Nodup
      exact nodup_insertSorted (fun hm => h.1 (mem_sortStrings.mp hm)) (ih h.2)

theorem mem_npUnique {a : String} {l : List String} : a ∈ npUnique l ↔ a ∈ l := by
  rw [npUnique, mem_sortStrings, List.mem_dedup]

theorem nodup_npUnique (l : List String) : (npUnique l).Nodup :=
  nodup_sortStrings l.nodup_dedup

theorem length_npUnique_le (l : List String) : (npUnique l).length ≤ l.length := by
  rw [npUnique, length_sortStrings]
  exact l.dedup_sublist.length_le

theorem dedup_all_eq {l : List String} {T : String} (hne : l ≠ [])
    (h : ∀ a ∈ l, a = T) : l.dedup = [T] := by
  induction l with
  | nil => exact absurd rfl hne
  | cons x xs ih =>
      have hx : x = T := h x (List.mem_cons_self x xs)
      subst hx
      cases xs with
      | nil => simp
      | cons y ys =>
          have hrec := ih (by simp) fun a ha => h a (List.mem_cons_of_mem x ha)
          have hxy : x ∈ y :: ys := by
            have hy : y = x := h y (List.mem_cons_of_mem x (List.mem_cons_self y ys))
            exact List.mem_cons.mpr (Or.inl hy.symm)
          rw [List.dedup_cons_of_mem hxy, hrec]

theorem uniqueTypes_all_eq {atoms : List Atom} {T : String} (hne : atoms ≠ [])
    (h : ∀ a ∈ atoms, a.type = T) : uniqueTypes atoms = [T] := by
  rw [uniqueTypes, npUnique, dedup_all_eq]
  · rfl
  · simpa using hne
  · intro a ha
    rw [List.mem_map] at ha
    obtain ⟨b, hb, rfl⟩ := ha
    exact h b hb

theorem uniqueTypes_length_le (atoms : List Atom) :
    (uniqueTypes atoms).length ≤ atoms.length := by
  rw [uniqueTypes]
  calc (npUnique (atoms.map fun a => a.type)).length
      ≤ (atoms.map fun a => a.type).length := length_npUnique_le _
    _ = atoms.length := List.length_map _ _

end UniverseLemmas

section ClaimC2

theorem extremalAtom_true (atoms : List Atom) :
    extremalAtom true atoms = maxChargeAtom atoms := rfl

theorem extremalAtom_false (atoms : List Atom) :
    extremalAtom false atoms = minChargeAtom atoms := rfl

theorem extremalAtom_mem {pos : Bool} {atoms : List Atom} (h : atoms ≠ []) :
    extremalAtom pos atoms ∈ atoms := by
  cases pos
  · rw [extremalAtom_false]
    exact minChargeAtom_mem h
  · rw [extremalAtom_true]
    exact maxChargeAtom_mem h

theorem uniCenter_of_uniqueTypes_single {atoms : List Atom} {T : String}
    (h : uniqueTypes atoms = [T]) : uniCenter atoms = T := by
  rw [uniCenter, h]
  rfl

/-- Claim C2: on an ion fragment whose atoms all share one distinct type T,
`extract_atom_from_ion` records exactly one entry, the canonical (possibly
numbered) ion name mapped to `"type T"`; on a multi-type fragment whose
extremal-charge atom's type differs from the rarest type, it records exactly
two entries: `name_atomname+atomtype` mapped to the extremal atom's type,
then the bare ion name mapped to the rarest type. -/
theorem claim_C2 (pos : Bool) (atoms : List Atom) (n : Nat) :
    (∀ T, atoms ≠ [] → (∀ a ∈ atoms, a.type = T) →
      extract_atom_from_ion pos atoms n = [(ionName pos n, "type " ++ T)])
    ∧ (2 ≤ (uniqueTypes atoms).length →
      (extremalAtom pos atoms).type ≠ uniCenter atoms →
      extract_atom_from_ion pos atoms n =
        [(ionName pos n ++ "_" ++ (extremalAtom pos atoms).name ++
            (extremalAtom pos atoms).type,
          "type " ++ (extremalAtom pos atoms).type),
         (ionName pos n, "type " ++ uniCenter atoms)]) := by
  constructor
  · intro T hne hall
    have huni : uniqueTypes atoms = [T] := uniqueTypes_all_eq hne hall
    have huc : uniCenter atoms = T := uniCenter_of_uniqueTypes_single huni
    cases pos with
    | true =>
        rw [extract_atom_from_ion, if_pos rfl]
        by_cases hlen : atoms.length = 1
        · rw [if_pos hlen]
          obtain ⟨a, ha⟩ := List.length_eq_one.mp hlen
          subst ha
          rw [show ([a].headD default) = a from rfl, hall a (List.mem_singleton_self a)]
        · rw [if_neg hlen, huc]
          rw [if_pos (hall _ (maxChargeAtom_mem hne))]
    | false =>
        rw [extract_atom_from_ion, if_neg Bool.false_ne_true]
        by_cases hlen : atoms.length = 1
        · rw [if_pos hlen]
          obtain ⟨a, ha⟩ := List.length_eq_one.mp hlen
          subst ha
          rw [show ([a].headD default) = a from rfl, hall a (List.mem_singleton_self a)]
        · rw [if_neg hlen, huc]
          rw [if_pos (hall _ (minChargeAtom_mem hne))]
  · intro h2 hdiff
    have hlen : atoms.length ≠ 1 := by
      intro h1
      have := uniqueTypes_length_le atoms
      omega
    cases pos with
    | true =>
        rw [extremalAtom_true] at hdiff ⊢
        rw [extract_atom_from_ion, if_pos rfl, if_neg hlen, if_neg hdiff]
    | false =>
        rw [extremalAtom_false] at hdiff ⊢
        rw [extract_atom_from_ion, if_neg Bool.false_ne_true, if_neg hlen, if_neg hdiff]

/-- Witness for claim C2 at concrete fragments: a one-type cation fragment
(two lithium atoms) gives the single entry; an anion fragment shaped like a
phosphorus hexafluoride center, whose most negative atom is a fluorine but
whose rarest type is the phosphorus, gives the two entries. -/
theorem claim_C2_witness :
    extract_atom_from_ion true [⟨"Li1", "Li", 1⟩, ⟨"Li2", "Li", 1⟩] 0 =
      [("cation", "type Li")] ∧
    extract_atom_from_ion false
        [⟨"P", "P", 1⟩, ⟨"F1", "F", -1⟩, ⟨"F2", "F", -1⟩] 0 =
      [("anion_F1F", "type F"), ("anion", "type P")] := by
  constructor
  · exact (claim_C2 true [⟨"Li1", "Li", 1⟩, ⟨"Li2", "Li", 1⟩] 0).1 "Li"
      (by decide) (by decide)
  · have h := (claim_C2 false [⟨"P", "P", 1⟩, ⟨"F1", "F", -1⟩, ⟨"F2", "F", -1⟩] 0).2
    rw [h]
    · rfl
    · decide
    · decide

end ClaimC2

section ResDictFromSelectDict

/-- One iteration of the loop of `res_dict_from_select_dict`: expand the atom
selection to whole residues; keep the entry when the key is "cation" or
"anion", or when the expanded group was not selected by an earlier entry. -/
def selStep (sel : String → List Nat)
    (st : List (List Nat) × List (String × String)) (kv : String × String) :
    List (List Nat) × List (String × String) :=
  if kv.1 = "cation" ∨ kv.1 = "anion" ∨ sel ("same resid as (" ++ kv.2 ++ ")") ∉ st.1 then
    (st.1 ++ [sel ("same resid as (" ++ kv.2 ++ ")")],
      updEntry st.2 kv.1 ("same resid as (" ++ kv.2 ++ ")"))
  else st

/-- The final cation/anion merge of `res_dict_from_select_dict`: when both
keys survive and select the same atoms, drop "anion" and rename "cation" to
"salt". -/
def selFinalize (sel : String → List Nat) (rd : List (String × String)) :
    List (String × String) :=
  match lookupE rd "cation", lookupE rd "anion" with
  | some vc, some va =>
      if sel vc = sel va then updEntry (popE (popE rd "anion") "cation") "salt" vc
      else rd
  | _, _ => rd

/-- `res_dict_from_select_dict`, over a universe abstracted as its selection
oracle `sel` (the atom group, as a canonical id list, each selection string
denotes). -/
def res_dict_from_select_dict (sel : String → List Nat)
    (select_dict : List (String × String)) : List (String × String) :=
  selFinalize sel (select_dict.foldl (selStep sel) ([], [])).2

theorem count_keysE_eq_one {K V : Type} [DecidableEq K] {d : List (K × V)} {k : K}
    (hnd : (keysE d).Nodup) (hmem : k ∈ keysE d) : (keysE d).count k = 1 :=
  List.count_eq_one_of_mem hnd hmem

theorem selFinalize_some {sel : String → List Nat} {rd : List (String × String)}
    {vc va : String} (hc : lookupE rd "cation" = some vc)
    (ha : lookupE rd "anion" = some va) :
    selFinalize sel rd =
      if sel vc = sel va then updEntry (popE (popE rd "anion") "cation") "salt" vc
      else rd := by
  rw [selFinalize, hc, ha]

theorem selStep_lookup_ne (sel : String → List Nat)
    (st : List (List Nat) × List (String × String)) (kv : String × String)
    {k : String} (h : k ≠ kv.1) :
    lookupE (selStep sel st kv).2 k = lookupE st.2 k := by
  rw [selStep]
  by_cases hc : kv.1 = "cation" ∨ kv.1 = "anion" ∨
      sel ("same resid as (" ++ kv.2 ++ ")") ∉ st.1
  · rw [if_pos hc]
    exact lookupE_updEntry_ne h
  · rw [if_neg hc]

theorem selLoop_lookup_not_mem (sel : String → List Nat) :
    ∀ (sd : List (String × String)) (st : List (List Nat) × List (String × String))
      (k : String), k ∉ keysE sd →
      lookupE (sd.foldl (selStep sel) st).2 k = lookupE st.2 k := by
  intro sd
  induction sd with
  | nil => intro st k _; rfl
  | cons kv rest ih =>
      intro st k hk
      rw [keysE_cons, List.mem_cons, not_or] at hk
      rw [List.foldl_cons, ih _ _ hk.2, selStep_lookup_ne sel st kv hk.1]

theorem selLoop_lookup (sel : String → List Nat) :
    ∀ (sd : List (String × String)) (st : List (List Nat) × List (String × String))
      (k v : String), (k = "cation" ∨ k = "anion") → (keysE sd).Nodup →
      lookupE sd k = some v →
      lookupE (sd.foldl (selStep sel) st).2 k = some ("same resid as (" ++ v ++ ")") := by
  intro sd
  induction sd with
  | nil => intro st k v _ _ hv; cases hv
  | cons kv rest ih =>
      intro st k v hk hnd hv
      rw [keysE_cons, List.nodup_cons] at hnd
      rw [List.foldl_cons]
      by_cases heq : kv.1 = k
      · rw [lookupE, if_pos heq] at hv
        cases hv
        rw [selLoop_lookup_not_mem sel rest _ k (heq ▸ hnd.1)]
        rw [selStep, if_pos (by rw [heq]; tauto)]
        exact heq ▸ lookupE_updEntry_self
      · rw [lookupE, if_neg heq] at hv
        exact ih _ k v hk hnd.2 hv

theorem selLoop_nodup (sel : String → List Nat) :
    ∀ (sd : List (String × String)) (st : List (List Nat) × List (String × String)),
      (keysE st.2).Nodup → (keysE (sd.foldl (selStep sel) st).2).Nodup := by
  intro sd
  induction sd with
  | nil => intro st h; exact h
  | cons kv rest ih =>
      intro st h
      rw [List.foldl_cons]
      refine ih _ ?_
      rw [selStep]
      by_cases hc : kv.1 = "cation" ∨ kv.1 = "anion" ∨
          sel ("same resid as (" ++ kv.2 ++ ")") ∉ st.1
      · rw [if_pos hc]
        exact nodup_keysE_updEntry h
      · rw [if_neg hc]
        exact h

/-- Claim C3: when a select_dict holds both a "cation" and an "anion" entry
and their residue-expanded selections pick the same atom set, the returned
res_dict holds a single "salt" entry carrying the cation's expanded
expression and neither a "cation" nor an "anion" key; when the expansions
differ in any atom, both keys remain. -/
theorem claim_C3 (sel : String → List Nat) (sd : List (String × String)) (vc va : String)
    (hnd : (keysE sd).Nodup)
    (hc : lookupE sd "cation" = some vc) (ha : lookupE sd "anion" = some va) :
    (sel ("same resid as (" ++ vc ++ ")") = sel ("same resid as (" ++ va ++ ")") →
      lookupE (res_dict_from_select_dict sel sd) "salt" =
        some ("same resid as (" ++ vc ++ ")") ∧
      (keysE (res_dict_from_select_dict sel sd)).count "salt" = 1 ∧
      "cation" ∉ keysE (res_dict_from_select_dict sel sd) ∧
      "anion" ∉ keysE (res_dict_from_select_dict sel sd))
    ∧ (sel ("same resid as (" ++ vc ++ ")") ≠ sel ("same resid as (" ++ va ++ ")") →
      "cation" ∈ keysE (res_dict_from_select_dict sel sd) ∧
      "anion" ∈ keysE (res_dict_from_select_dict sel sd)) := by
  have hlc := selLoop_lookup sel sd ([], []) "cation" vc (Or.inl rfl) hnd hc
  have hla := selLoop_lookup sel sd ([], []) "anion" va (Or.inr rfl) hnd ha
  have hlnd : (keysE (sd.foldl (selStep sel) ([], [])).2).Nodup :=
    selLoop_nodup sel sd ([], []) (by simp [keysE])
  constructor
  · intro heq
    have hres : res_dict_from_select_dict sel sd =
        updEntry (popE (popE (sd.foldl (selStep sel) ([], [])).2 "anion") "cation")
          "salt" ("same resid as (" ++ vc ++ ")") := by
      rw [res_dict_from_select_dict, selFinalize_some hlc hla]
      rw [if_pos heq]
    rw [hres]
    have hndpa : (keysE (popE (sd.foldl (selStep sel) ([], [])).2 "anion")).Nodup :=
      nodup_keysE_popE hlnd
    have hndpc : (keysE (popE (popE (sd.foldl (selStep sel) ([], [])).2 "anion")
        "cation")).Nodup := nodup_keysE_popE hndpa
    refine ⟨lookupE_updEntry_self, ?_, ?_, ?_⟩
    · exact count_keysE_eq_one (nodup_keysE_updEntry hndpc)
        (mem_keysE_updEntry.mpr (Or.inl rfl))
    · intro hmem
      rcases mem_keysE_updEntry.mp hmem with h1 | h1
      · exact absurd h1 (by decide)
      · exact not_mem_keysE_popE hndpa h1
    · intro hmem
      rcases mem_keysE_updEntry.mp hmem with h1 | h1
      · exact absurd h1 (by decide)
      · exact not_mem_keysE_popE hlnd (mem_keysE_of_mem_popE h1)
  · intro hne
    have hres : res_dict_from_select_dict sel sd = (sd.foldl (selStep sel) ([], [])).2 := by
      rw [res_dict_from_select_dict, selFinalize_some hlc hla]
      rw [if_neg hne]
    rw [hres]
    exact ⟨mem_keysE_of_lookupE hlc, mem_keysE_of_lookupE hla⟩

/-- Witness for claim C3 at a concrete select_dict and oracle: with cation and
anion expanding to the same atoms, only "salt" remains. -/
theorem claim_C3_witness :
    lookupE
        (res_dict_from_select_dict (fun _ => [1, 2])
          [("cation", "type Li"), ("anion", "type Cl")]) "salt" =
      some "same resid as (type Li)" := by
  have h := (claim_C3 (fun _ => [1, 2]) [("cation", "type Li"), ("anion", "type Cl")]
    "type Li" "type Cl" (by decide) rfl rfl).1 rfl
  exact h.1

end ResDictFromSelectDict

section ClaimC1Machinery

theorem underscore_mem_append_left {a : String} (b : String) (h : '_' ∈ a.data) :
    '_' ∈ (a ++ b).data := by
  rw [String.data_append]
  exact List.mem_append_left _ h

theorem underscore_mem_xu (x : String) : '_' ∈ (x ++ "_").data := by
  rw [String.data_append]
  refine List.mem_append_right _ ?_
  decide

theorem ionName_shape (pos : Bool) (num : Nat) :
    ionName pos num = "cation" ∨ ionName pos num = "anion" ∨
      '_' ∈ (ionName pos num).data := by
  cases pos with
  | true =>
      have hdef : ionName true num =
          (if num = 0 then "cation" else "cation_" ++ toString num) := rfl
      rw [hdef]
      by_cases hn : num = 0
      · rw [if_pos hn]
        exact Or.inl rfl
      · rw [if_neg hn]
        exact Or.inr (Or.inr (underscore_mem_append_left _ (by decide)))
  | false =>
      have hdef : ionName false num =
          (if num = 0 then "anion" else "anion_" ++ toString num) := rfl
      rw [hdef]
      by_cases hn : num = 0
      · rw [if_pos hn]
        exact Or.inr (Or.inl rfl)
      · rw [if_neg hn]
        exact Or.inr (Or.inr (underscore_mem_append_left _ (by decide)))

theorem underscore_mem_suffixed (a b c : String) : '_' ∈ (a ++ "_" ++ b ++ c).data := by
  exact underscore_mem_append_left _ (underscore_mem_append_left _ (underscore_mem_xu a))

theorem ion_keys_shape (pos : Bool) (atoms : List Atom) (num : Nat) :
    ∀ k ∈ (extract_atom_from_ion pos atoms num).map Prod.fst,
      k = "cation" ∨ k = "anion" ∨ '_' ∈ k.data := by
  intro k hk
  cases pos with
  | true =>
      rw [extract_atom_from_ion, if_pos rfl] at hk
      by_cases hlen : atoms.length = 1
      · rw [if_pos hlen] at hk
        simp only [List.map_cons, List.map_nil, List.mem_singleton] at hk
        exact hk ▸ ionName_shape true num
      · rw [if_neg hlen] at hk
        by_cases heq : (maxChargeAtom atoms).type = uniCenter atoms
        · rw [if_pos heq] at hk
          simp only [List.map_cons, List.map_nil, List.mem_singleton] at hk
          exact hk ▸ ionName_shape true num
        · rw [if_neg heq] at hk
          simp only [List.map_cons, List.map_nil, List.mem_cons,
            List.mem_singleton] at hk
          rcases hk with hk | hk
          · exact Or.inr (Or.inr (hk ▸ underscore_mem_suffixed _ _ _))
          · rcases hk with hk | hk
            · exact hk ▸ ionName_shape true num
            · cases hk
  | false =>
      rw [extract_atom_from_ion, if_neg Bool.false_ne_true] at hk
      by_cases hlen : atoms.length = 1
      · rw [if_pos hlen] at hk
        simp only [List.map_cons, List.map_nil, List.mem_singleton] at hk
        exact hk ▸ ionName_shape false num
      · rw [if_neg hlen] at hk
        by_cases heq : (minChargeAtom atoms).type = uniCenter atoms
        · rw [if_pos heq] at hk
          simp only [List.map_cons, List.map_nil, List.mem_singleton] at hk
          exact hk ▸ ionName_shape false num
        · rw [if_neg heq] at hk
          simp only [List.map_cons, List.map_nil, List.mem_cons,
            List.mem_singleton] at hk
          rcases hk with hk | hk
          · exact Or.inr (Or.inr (hk ▸ underscore_mem_suffixed _ _ _))
          · rcases hk with hk | hk
            · exact hk ▸ ionName_shape false num
            · cases hk

theorem molecule_keys_shape (rn : String) (atoms : List Atom) (num : Nat) :
    ∀ k ∈ (extract_atom_from_molecule rn atoms num).map Prod.fst,
      k = rn ∨ '_' ∈ k.data := by
  intro k hk
  rw [extract_atom_from_molecule] at hk
  simp only [List.map_cons, List.map_nil, List.mem_singleton] at hk
  by_cases hn : num > 0
  · rw [if_pos hn] at hk
    exact Or.inr (hk ▸ underscore_mem_append_left _ (underscore_mem_xu rn))
  · rw [if_neg hn] at hk
    exact Or.inl hk

theorem ion_name_mem_keys (pos : Bool) (atoms : List Atom) (num : Nat) :
    ionName pos num ∈ (extract_atom_from_ion pos atoms num).map Prod.fst := by
  cases pos with
  | true =>
      rw [extract_atom_from_ion, if_pos rfl]
      by_cases hlen : atoms.length = 1
      · rw [if_pos hlen]
        simp
      · rw [if_neg hlen]
        by_cases heq : (maxChargeAtom atoms).type = uniCenter atoms
        · rw [if_pos heq]
          simp
        · rw [if_neg heq]
          simp
  | false =>
      rw [extract_atom_from_ion, if_neg Bool.false_ne_true]
      by_cases hlen : atoms.length = 1
      · rw [if_pos hlen]
        simp
      · rw [if_neg hlen]
        by_cases heq : (minChargeAtom atoms).type = uniCenter atoms
        · rw [if_pos heq]
          simp
        · rw [if_neg heq]
          simp

theorem foldl_keysE_mono {σ α : Type} (f : σ → α → σ)
    (proj : σ → List (String × String))
    (hf : ∀ s x a, a ∈ keysE (proj s) → a ∈ keysE (proj (f s x))) :
    ∀ (l : List α) (s : σ) (a : String),
      a ∈ keysE (proj s) → a ∈ keysE (proj (l.foldl f s)) := by
  intro l
  induction l with
  | nil => intro s a h; exact h
  | cons x xs ih =>
      intro s a h
      rw [List.foldl_cons]
      exact ih _ a (hf s x a h)

theorem foldl_keysE_nodup {σ α : Type} (f : σ → α → σ)
    (proj : σ → List (String × String))
    (hf : ∀ s x, (keysE (proj s)).Nodup → (keysE (proj (f s x))).Nodup) :
    ∀ (l : List α) (s : σ),
      (keysE (proj s)).Nodup → (keysE (proj (l.foldl f s))).Nodup := by
  intro l
  induction l with
  | nil => intro s h; exact h
  | cons x xs ih =>
      intro s h
      rw [List.foldl_cons]
      exact ih _ (hf s x h)

theorem foldl_lookupE_preserve {σ α : Type} (f : σ → α → σ)
    (proj : σ → List (String × String)) (k : String)
    (hf : ∀ s x, lookupE (proj (f s x)) k = lookupE (proj s) k) :
    ∀ (l : List α) (s : σ),
      lookupE (proj (l.foldl f s)) k = lookupE (proj s) k := by
  intro l
  induction l with
  | nil => intro s; rfl
  | cons x xs ih =>
      intro s
      rw [List.foldl_cons, ih _, hf s x]

theorem foldl_lookup_preserve_mem {α : Type}
    (f : List (String × String) → α → List (String × String)) (k : String) :
    ∀ (l : List α),
      (∀ d y, y ∈ l → lookupE (f d y) k = lookupE d k) →
      ∀ d, lookupE (l.foldl f d) k = lookupE d k := by
  intro l
  induction l with
  | nil => intro _ d; rfl
  | cons x xs ih =>
      intro hl d
      rw [List.foldl_cons]
      rw [ih (fun d2 y hy => hl d2 y (List.mem_cons_of_mem x hy)) _]
      exact hl d x (List.mem_cons_self x xs)

theorem foldl_key_estab
    (f : List (String × String) → String → List (String × String))
    (l : List String) (x : String) (hx : x ∈ l) (k : String)
    (hstab : ∀ d, k ∈ keysE (f d x))
    (hmono : ∀ d y a, a ∈ keysE d → a ∈ keysE (f d y)) :
    ∀ d, k ∈ keysE (l.foldl f d) := by
  induction l with
  | nil => cases hx
  | cons y ys ih =>
      intro d
      rw [List.foldl_cons]
      rcases List.mem_cons.mp hx with rfl | hmem
      · exact foldl_keysE_mono f id (fun s z a h => hmono s z a h) ys (f d x) k (hstab d)
      · exact ih hmem (f d y)

theorem foldl_lookup_estab
    (f : List (String × String) → String → List (String × String))
    (l : List String) (x : String) (hx : x ∈ l) (hnd : l.Nodup) (k v : String)
    (hstab : ∀ d, lookupE (f d x) k = some v)
    (hpres : ∀ d y, y ∈ l → y ≠ x → lookupE (f d y) k = lookupE d k) :
    ∀ d, lookupE (l.foldl f d) k = some v := by
  induction l with
  | nil => cases hx
  | cons y ys ih =>
      intro d
      rw [List.nodup_cons] at hnd
      rw [List.foldl_cons]
      rcases List.mem_cons.mp hx with rfl | hmem
      · rw [foldl_lookup_preserve_mem f k ys
          (fun d2 z hz => hpres d2 z (List.mem_cons_of_mem x hz)
            (fun hzx => hnd.1 (hzx ▸ hz))) (f d x)]
        exact hstab d
      · exact ih hmem hnd.2
          (fun d2 z hz hzx => hpres d2 z (List.mem_cons_of_mem y hz) hzx) (f d y)

end ClaimC1Machinery

section ClaimC1

theorem ion_applyEntries_lookup {d : List (String × String)} {k : String}
    {pos : Bool} {atoms : List Atom} {num : Nat}
    (h1 : k ≠ "cation") (h2 : k ≠ "anion") (h3 : '_' ∉ k.data) :
    lookupE (applyEntries d (extract_atom_from_ion pos atoms num)) k = lookupE d k := by
  refine lookupE_applyEntries_of_not_mem fun hmem => ?_
  rcases ion_keys_shape pos atoms num k hmem with h | h | h
  · exact h1 h
  · exact h2 h
  · exact h3 h

theorem mol_applyEntries_lookup {d : List (String × String)} {k rn : String}
    {atoms : List Atom} {num : Nat} (hk : k ≠ rn) (h3 : '_' ∉ k.data) :
    lookupE (applyEntries d (extract_atom_from_molecule rn atoms num)) k = lookupE d k := by
  refine lookupE_applyEntries_of_not_mem fun hmem => ?_
  rcases molecule_keys_shape rn atoms num k hmem with h | h
  · exact hk h
  · exact h3 h

theorem classify_keys_mono {rn : String} {r : Residue} {sd : List (String × String)}
    {a : String} (h : a ∈ keysE sd) : a ∈ keysE (classifyResidue rn r sd) := by
  rw [classifyResidue]
  split_ifs with hc h2 hge
  · refine foldl_keysE_mono _ id ?_ _ sd a h
    intro d p b hb
    dsimp only
    split_ifs
    · exact mem_keysE_applyEntries.mpr (Or.inl hb)
    · exact mem_keysE_applyEntries.mpr (Or.inl hb)
    · exact mem_keysE_applyEntries.mpr (Or.inl hb)
  · refine foldl_keysE_mono _ Prod.snd ?_ _ ((1, 1, 1), sd) a h
    intro st frag b hb
    dsimp only
    split_ifs
    · exact mem_keysE_applyEntries.mpr (Or.inl hb)
    · exact mem_keysE_applyEntries.mpr (Or.inl hb)
    · exact mem_keysE_applyEntries.mpr (Or.inl hb)
  · exact mem_keysE_applyEntries.mpr (Or.inl h)
  · exact mem_keysE_applyEntries.mpr (Or.inl h)
  · exact mem_keysE_applyEntries.mpr (Or.inl h)

theorem classify_nodup {rn : String} {r : Residue} {sd : List (String × String)}
    (h : (keysE sd).Nodup) : (keysE (classifyResidue rn r sd)).Nodup := by
  rw [classifyResidue]
  split_ifs with hc h2 hge
  · refine foldl_keysE_nodup _ id ?_ _ sd h
    intro d p hb
    dsimp only
    split_ifs
    · exact nodup_keysE_applyEntries hb
    · exact nodup_keysE_applyEntries hb
    · exact nodup_keysE_applyEntries hb
  · refine foldl_keysE_nodup _ Prod.snd ?_ _ ((1, 1, 1), sd) h
    intro st frag hb
    dsimp only
    split_ifs
    · exact nodup_keysE_applyEntries hb
    · exact nodup_keysE_applyEntries hb
    · exact nodup_keysE_applyEntries hb
  · exact nodup_keysE_applyEntries h
  · exact nodup_keysE_applyEntries h
  · exact nodup_keysE_applyEntries h

theorem classify_lookup_preserve {k rn : String} {r : Residue}
    {sd : List (String × String)} (hk : k ≠ rn) (h1 : k ≠ "cation")
    (h2 : k ≠ "anion") (h3 : '_' ∉ k.data) :
    lookupE (classifyResidue rn r sd) k = lookupE sd k := by
  rw [classifyResidue]
  split_ifs with hc hf2 hge
  · refine foldl_lookupE_preserve _ id k ?_ _ sd
    intro d p
    dsimp only
    split_ifs
    · exact ion_applyEntries_lookup h1 h2 h3
    · exact ion_applyEntries_lookup h1 h2 h3
    · exact mol_applyEntries_lookup hk h3
  · refine foldl_lookupE_preserve _ Prod.snd k ?_ _ ((1, 1, 1), sd)
    intro st frag
    dsimp only
    split_ifs
    · exact ion_applyEntries_lookup h1 h2 h3
    · exact ion_applyEntries_lookup h1 h2 h3
    · exact mol_applyEntries_lookup hk h3
  · exact mol_applyEntries_lookup hk h3
  · exact ion_applyEntries_lookup h1 h2 h3
  · exact ion_applyEntries_lookup h1 h2 h3

theorem sdrStep_keys_mono {u : List Residue} {sd : List (String × String)}
    {rn a : String} (h : a ∈ keysE sd) : a ∈ keysE (sdrStep u sd rn) := by
  rw [sdrStep]
  by_cases he : rn = ""
  · rw [if_pos he]
    exact h
  · rw [if_neg he]
    cases hf : u.find? (fun r => r.resname == rn) with
    | none => exact h
    | some R => exact classify_keys_mono h

theorem sdrStep_nodup {u : List Residue} {sd : List (String × String)} {rn : String}
    (h : (keysE sd).Nodup) : (keysE (sdrStep u sd rn)).Nodup := by
  rw [sdrStep]
  by_cases he : rn = ""
  · rw [if_pos he]
    exact h
  · rw [if_neg he]
    cases hf : u.find? (fun r => r.resname == rn) with
    | none => exact h
    | some R => exact classify_nodup h

theorem sdrStep_lookup_preserve {u : List Residue} {sd : List (String × String)}
    {rn k : String} (hk : k ≠ rn) (h1 : k ≠ "cation") (h2 : k ≠ "anion")
    (h3 : '_' ∉ k.data) : lookupE (sdrStep u sd rn) k = lookupE sd k := by
  rw [sdrStep]
  by_cases he : rn = ""
  · rw [if_pos he]
  · rw [if_neg he]
    cases hf : u.find? (fun r => r.resname == rn) with
    | none => rfl
    | some R => exact classify_lookup_preserve hk h1 h2 h3

theorem sdr_nodup (u : List Residue) :
    (keysE (select_dict_from_resname u)).Nodup := by
  rw [select_dict_from_resname]
  refine foldl_keysE_nodup (sdrStep u) id ?_ _ [] (by simp [keysE])
  intro d rn hnd
  exact sdrStep_nodup hnd

theorem classify_two_frag_keys (rn : String) (R : Residue) (f1 f2 : List Atom)
    (sd : List (String × String)) (hch : |residueCharge R| ≤ 1 / 100000)
    (hfrag : R.fragments = [f1, f2]) (h1 : fragCharge f1 = 1)
    (h2 : fragCharge f2 = -1) :
    "cation" ∈ keysE (classifyResidue rn R sd) ∧
      "anion" ∈ keysE (classifyResidue rn R sd) := by
  rw [classifyResidue, if_pos hch, hfrag]
  rw [if_pos (show ([f1, f2] : List (List Atom)).length = 2 from rfl)]
  have he : ([f1, f2] : List (List Atom)).enum = [(0, f1), (1, f2)] := rfl
  rw [he, List.foldl_cons, List.foldl_cons, List.foldl_nil]
  dsimp only
  rw [h1, h2]
  rw [if_pos (by norm_num : (1 : ℚ) > 1 / 1000)]
  rw [if_neg (by norm_num : ¬((-1 : ℚ) > 1 / 1000))]
  rw [if_pos (by norm_num : (-1 : ℚ) < -(1 / 1000))]
  constructor
  · exact mem_keysE_applyEntries.mpr
      (Or.inl (mem_keysE_applyEntries.mpr (Or.inr (ion_name_mem_keys true f1 0))))
  · exact mem_keysE_applyEntries.mpr (Or.inr (ion_name_mem_keys false f2 0))

theorem classify_single_frag_lookup (rn : String) (R : Residue) (f : List Atom)
    (sd : List (String × String)) (hch : |residueCharge R| ≤ 1 / 100000)
    (hfrag : R.fragments = [f]) :
    classifyResidue rn R sd =
      updEntry sd rn ("type " ++ (minChargeAtom R.atoms).type) := by
  rw [classifyResidue, if_pos hch, hfrag]
  rw [if_neg (by simp : ¬(([f] : List (List Atom)).length = 2))]
  rw [if_neg (by simp : ¬(2 ≤ ([f] : List (List Atom)).length))]
  have hm : extract_atom_from_molecule rn R.atoms 0 =
      [(rn, "type " ++ (minChargeAtom R.atoms).type)] := by
    rw [extract_atom_from_molecule]
    norm_num
  rw [hm, applyEntries_cons, applyEntries_nil]

/-- Claim C1: in a universe whose representative residue of some nonempty
resname is charge-neutral with exactly two fragments of net charges +1 and
-1, the returned select_dict holds exactly one "cation" and one "anion"
entry; and when the representative residue of a (bare, collision-free)
resname is charge-neutral with a single fragment, the select_dict holds
exactly one entry keyed by the bare resname, valued "type T" for T the type
of the residue's minimum-charge atom. -/
theorem claim_C1 (u : List Residue) :
    (∀ (R : Residue) (f1 f2 : List Atom),
      u.find? (fun r => r.resname == R.resname) = some R →
      R.resname ≠ "" →
      |residueCharge R| ≤ 1 / 100000 →
      R.fragments = [f1, f2] →
      fragCharge f1 = 1 → fragCharge f2 = -1 →
      (keysE (select_dict_from_resname u)).count "cation" = 1 ∧
        (keysE (select_dict_from_resname u)).count "anion" = 1)
    ∧ ∀ (R : Residue) (f : List Atom),
      u.find? (fun r => r.resname == R.resname) = some R →
      R.resname ≠ "" → R.resname ≠ "cation" → R.resname ≠ "anion" →
      '_' ∉ R.resname.data → R.atoms ≠ [] →
      |residueCharge R| ≤ 1 / 100000 →
      R.fragments = [f] →
      lookupE (select_dict_from_resname u) R.resname =
        some ("type " ++ (minChargeAtom R.atoms).type) ∧
      (keysE (select_dict_from_resname u)).count R.resname = 1 := by
  constructor
  · intro R f1 f2 hfind hrn hch hfrag h1 h2
    have hmem : R ∈ u := List.mem_of_find?_eq_some hfind
    have hrnmem : R.resname ∈ npUnique (u.map fun r => r.resname) :=
      mem_npUnique.mpr (List.mem_map_of_mem _ hmem)
    have hnd := sdr_nodup u
    have hcat : "cation" ∈ keysE (select_dict_from_resname u) := by
      rw [select_dict_from_resname]
      refine foldl_key_estab (sdrStep u) _ R.resname hrnmem "cation" ?_
        (fun d y a ha => sdrStep_keys_mono ha) []
      intro d
      rw [sdrStep, if_neg hrn, hfind]
      exact (classify_two_frag_keys R.resname R f1 f2 d hch hfrag h1 h2).1
    have hani : "anion" ∈ keysE (select_dict_from_resname u) := by
      rw [select_dict_from_resname]
      refine foldl_key_estab (sdrStep u) _ R.resname hrnmem "anion" ?_
        (fun d y a ha => sdrStep_keys_mono ha) []
      intro d
      rw [sdrStep, if_neg hrn, hfind]
      exact (classify_two_frag_keys R.resname R f1 f2 d hch hfrag h1 h2).2
    exact ⟨count_keysE_eq_one hnd hcat, count_keysE_eq_one hnd hani⟩
  · intro R f hfind hrn hrc hra hus hatoms hch hfrag
    have hmem : R ∈ u := List.mem_of_find?_eq_some hfind
    have hrnmem : R.resname ∈ npUnique (u.map fun r => r.resname) :=
      mem_npUnique.mpr (List.mem_map_of_mem _ hmem)
    have hnd := sdr_nodup u
    have hlook : lookupE (select_dict_from_resname u) R.resname =
        some ("type " ++ (minChargeAtom R.atoms).type) := by
      rw [select_dict_from_resname]
      refine foldl_lookup_estab (sdrStep u) _ R.resname hrnmem
        (nodup_npUnique _) R.resname _ ?_ ?_ []
      · intro d
        rw [sdrStep, if_neg hrn, hfind]
        show lookupE (classifyResidue R.resname R d) R.resname = _
        rw [classify_single_frag_lookup R.resname R f d hch hfrag]
        exact lookupE_updEntry_self
      · intro d y hy hyne
        exact sdrStep_lookup_preserve (fun hh => hyne hh.symm) hrc hra hus
    refine ⟨hlook, count_keysE_eq_one hnd ?_⟩
    rw [← lookupE_isSome_iff_mem, hlook]
    rfl

/-- Witness for claim C1 at a concrete universe: a lithium-chloride ion pair
residue (two fragments of charge +1 and -1) yields one "cation" and one
"anion" entry; a one-fragment water-like residue "SOL" yields the single
entry "SOL" mapped to the type of its most negative atom. -/
theorem claim_C1_witness :
    ((keysE (select_dict_from_resname
        [⟨"PAIR", [⟨"Li", "Li", 1⟩, ⟨"Cl", "Cl", -1⟩],
          [[⟨"Li", "Li", 1⟩], [⟨"Cl", "Cl", -1⟩]]⟩])).count "cation" = 1 ∧
      (keysE (select_dict_from_resname
        [⟨"PAIR", [⟨"Li", "Li", 1⟩, ⟨"Cl", "Cl", -1⟩],
          [[⟨"Li", "Li", 1⟩], [⟨"Cl", "Cl", -1⟩]]⟩])).count "anion" = 1)
    ∧ lookupE (select_dict_from_resname
        [⟨"SOL", [⟨"O", "OW", -(4/5)⟩, ⟨"H1", "HW", 2/5⟩, ⟨"H2", "HW", 2/5⟩],
          [[⟨"O", "OW", -(4/5)⟩, ⟨"H1", "HW", 2/5⟩, ⟨"H2", "HW", 2/5⟩]]⟩]) "SOL" =
      some ("type " ++ (minChargeAtom
        [⟨"O", "OW", -(4/5)⟩, ⟨"H1", "HW", 2/5⟩, ⟨"H2", "HW", 2/5⟩]).type) := by
  constructor
  · exact (claim_C1 _).1 ⟨"PAIR", [⟨"Li", "Li", 1⟩, ⟨"Cl", "Cl", -1⟩],
      [[⟨"Li", "Li", 1⟩], [⟨"Cl", "Cl", -1⟩]]⟩ [⟨"Li", "Li", 1⟩] [⟨"Cl", "Cl", -1⟩]
      (by rfl) (by decide) (by norm_num [residueCharge]) rfl
      (by norm_num [fragCharge]) (by norm_num [fragCharge])
  · exact ((claim_C1 _).2 ⟨"SOL", [⟨"O", "OW", -(4/5)⟩, ⟨"H1", "HW", 2/5⟩, ⟨"H2", "HW", 2/5⟩],
      [[⟨"O", "OW", -(4/5)⟩, ⟨"H1", "HW", 2/5⟩, ⟨"H2", "HW", 2/5⟩]]⟩
      [⟨"O", "OW", -(4/5)⟩, ⟨"H1", "HW", 2/5⟩, ⟨"H2", "HW", 2/5⟩]
      (by rfl) (by decide) (by decide) (by decide) (by decide) (by decide)
      (by norm_num [residueCharge]) rfl).1

end ClaimC1
